import Mathlib

/-!
dnsweekend: DNS wire-format codec and resolver

A shallow embedding of the Go package `dnsweekend` (part1.go, part2.go, part3.go).

* A Go `byte` is a `Nat` below 256, a `[]byte` or a `string` is a `List Nat`
  (Go strings are byte sequences, `len` counts bytes).
* A `uint16` is a `Nat` below 65536; where the code truncates, the model
  reduces modulo the width.
* A `*bytes.Reader` is a `Reader`: the underlying slice and the read index.
  Every function that takes the reader returns the reader it leaves behind.
* The `for` loop of `decodeDNSName` has no bound in the source, so it is
  modelled with a fuel parameter counting loop iterations: `none` means the
  loop is still running when the fuel is used up.
* A returned `error` and a `panic` are `Except.error`; where a function can do both
  (`decodeDNSNameSimple`, `LookupDomain`) the two are kept apart.
* `SendQuery` is a parameter, the transport: a function from domain, nameserver and record
  type to the response bytes or an error. `Resolve` returns its result together with the
  list of the queries it sent.
-/

namespace DNSWeekend

/-! ## bytes.Reader -/

/-- The state of a Go `bytes.Reader`: the slice `s` and the index `i`. -/
structure Reader where
  s : List Nat
  i : Nat
deriving DecidableEq, Repr

/-- Model of `bytes.NewReader(b)`. -/
def NewReader (b : List Nat) : Reader := ⟨b, 0⟩

/-- Model of `(*bytes.Reader).ReadByte`: the byte read (0 at end of input), whether
`io.EOF` was returned, and the reader afterwards. -/
def Reader.ReadByte (r : Reader) : Nat × Bool × Reader :=
  if r.i ≥ r.s.length then (0, true, r)
  else (r.s.getD r.i 0, false, { r with i := r.i + 1 })

/-- Model of `b := make([]byte, n); r.Read(b)`: the contents of `b` afterwards and the
reader afterwards. At end of input nothing is copied; otherwise
`copy(b, r.s[r.i:])` copies as many bytes as fit and the rest of `b` stays zero. -/
def Reader.Read (r : Reader) (n : Nat) : List Nat × Reader :=
  if r.i ≥ r.s.length then (List.replicate n 0, r)
  else
    let c := min n (r.s.length - r.i)
    ((r.s.drop r.i).take c ++ List.replicate (n - c) 0, { r with i := r.i + c })

/-- Model of `r.Seek(abs, io.SeekStart)` for a non-negative offset. -/
def Reader.SeekStart (r : Reader) (abs : Nat) : Reader := { r with i := abs }

/-- Model of `r.Seek(0, io.SeekCurrent)`: the current index. -/
def Reader.SeekCurrent (r : Reader) : Nat := r.i

/-! ## encoding/binary, strings -/

/-- Model of `binary.BigEndian.Uint16` on a 2-byte slice. -/
def Uint16 (b : List Nat) : Nat := b.getD 0 0 * 256 + b.getD 1 0

/-- Model of `binary.BigEndian.Uint32` on a 4-byte slice. -/
def Uint32 (b : List Nat) : Nat :=
  b.getD 0 0 * 16777216 + b.getD 1 0 * 65536 + b.getD 2 0 * 256 + b.getD 3 0

/-- Model of `binary.BigEndian.PutUint16(b[off:], v)`: `b[off] = byte(v >> 8)`,
`b[off+1] = byte(v)`. -/
def PutUint16 (b : List Nat) (off : Nat) (v : Nat) : List Nat :=
  (b.set off ((v >>> 8) % 256)).set (off + 1) (v % 256)

/-- The byte `'.'`. -/
def dot : Nat := 46

/-- Model of `strings.Split(s, ".")`: the substrings between the dots; a string
without a dot (the empty string too) gives one element. -/
def Split : List Nat → List (List Nat)
  | [] => [[]]
  | c :: cs =>
    if c = dot then [] :: Split cs
    else
      match Split cs with
      | [] => [[c]]
      | l :: ls => (c :: l) :: ls

/-- Model of `strings.Join(elems, ".")`. -/
def Join : List (List Nat) → List Nat
  | [] => []
  | [l] => l
  | l :: ls => l ++ dot :: Join ls

/-- The bytes of an ASCII string literal. -/
def ascii (s : String) : List Nat := s.toList.map Char.toNat

/-! ## part1.go -/

/-- Model of `DNSHeader`. -/
structure DNSHeader where
  ID : Nat
  Flags : Nat
  QDCount : Nat
  ANCount : Nat
  NSCount : Nat
  ARCount : Nat
deriving DecidableEq, Repr

/-- Model of `DNSQuestion` (the field `Type` is `Typ`: `Type` is reserved). -/
structure DNSQuestion where
  Name : List Nat
  Typ : Nat
  Class : Nat
deriving DecidableEq, Repr

/-- Record type `A`. -/
def A : Nat := 1
/-- Record type `NS`. -/
def NS : Nat := 2
/-- Record type `AAAA`. -/
def AAAA : Nat := 28
/-- Record class `IN`. -/
def IN : Nat := 1

/-- Model of `(*DNSHeader).toBytes`. -/
def DNSHeader.toBytes (h : DNSHeader) : List Nat :=
  let bytes := List.replicate 12 0
  let bytes := PutUint16 bytes 0 h.ID
  let bytes := PutUint16 bytes 2 h.Flags
  let bytes := PutUint16 bytes 4 h.QDCount
  let bytes := PutUint16 bytes 6 h.ANCount
  let bytes := PutUint16 bytes 8 h.NSCount
  let bytes := PutUint16 bytes 10 h.ARCount
  bytes

/-- A `uint16` left shift. -/
def shl16 (x k : Nat) : Nat := (x <<< k) % 65536

/-- Model of `(*DNSHeader).setFlags`. -/
def DNSHeader.setFlags (h : DNSHeader) (qr opcode aa tc rd ra z rcode : Nat) : DNSHeader :=
  { h with Flags :=
      shl16 qr 15 ||| shl16 opcode 11 ||| shl16 aa 10 ||| shl16 tc 9 |||
      shl16 rd 8 ||| shl16 ra 7 ||| shl16 z 4 ||| rcode }

/-- Model of `(*DNSQuestion).toBytes`. -/
def DNSQuestion.toBytes (q : DNSQuestion) : List Nat :=
  let nameLength := q.Name.length
  let questionSize := nameLength + 4
  let bytes := List.replicate questionSize 0
  let bytes := q.Name ++ bytes.drop nameLength
  let bytes := PutUint16 bytes nameLength q.Typ
  let bytes := PutUint16 bytes (nameLength + 2) q.Class
  bytes

/-- Model of `encodeDNSName`: the loop writes, for each label, `byte(len(label))`
and the label into the buffer; a zero byte is written last. -/
def encodeDNSName (domain : List Nat) : List Nat :=
  let labels := Split domain
  let buffer := labels.foldl (fun buffer label => (buffer ++ [label.length % 256]) ++ label) []
  buffer ++ [0]

/-- Model of `buildQuery`; `id` is the value returned by `rand.Intn(65535)`. -/
def buildQuery (id : Nat) (domain : List Nat) (recursionDesired : Bool) (recordType : Nat) :
    List Nat :=
  let header : DNSHeader :=
    { ID := id % 65536, Flags := 0, QDCount := 1, ANCount := 0, NSCount := 0, ARCount := 0 }
  let header := if recursionDesired then header.setFlags 0 0 0 0 1 0 0 0 else header
  let question : DNSQuestion :=
    { Name := encodeDNSName domain, Typ := recordType, Class := IN }
  header.toBytes ++ question.toBytes

/-! ## part2.go -/

/-- Model of `DNSRecord` (the field `Type` is `Typ`: `Type` is reserved). -/
structure DNSRecord where
  Name : List Nat
  Typ : Nat
  Class : Nat
  TTL : Nat
  data : List Nat
deriving DecidableEq, Repr

/-- Model of `DNSPacket`. -/
structure DNSPacket where
  Header : DNSHeader
  Questions : List DNSQuestion
  Answers : List DNSRecord
  Authorities : List DNSRecord
  Additionals : List DNSRecord
deriving DecidableEq, Repr

/-- Model of `parseDNSHeader`: six 2-byte reads, each decoded big-endian. -/
def parseDNSHeader (header : Reader) : DNSHeader × Reader :=
  let (idBytes, header) := header.Read 2
  let (flagsBytes, header) := header.Read 2
  let (qdCountBytes, header) := header.Read 2
  let (anCountBytes, header) := header.Read 2
  let (nsCountBytes, header) := header.Read 2
  let (arCountBytes, header) := header.Read 2
  ({ ID := Uint16 idBytes, Flags := Uint16 flagsBytes, QDCount := Uint16 qdCountBytes,
     ANCount := Uint16 anCountBytes, NSCount := Uint16 nsCountBytes,
     ARCount := Uint16 arCountBytes }, header)

/-- The variables of the loop of `decodeDNSName`: the reader, `readerIndex` and `labels`. -/
structure DecodeState where
  name : Reader
  readerIndex : Nat
  labels : List (List Nat)
deriving DecidableEq, Repr

/-- What one pass through the loop body of `decodeDNSName` does: return, or go round again. -/
inductive DecodeStep where
  | ret (result : Except String (List Nat)) (name : Reader)
  | again (st : DecodeState)

/-- One pass through the loop body of `decodeDNSName`. -/
def decodeDNSNameBody (st : DecodeState) : DecodeStep :=
  let (size, eof, name) := st.name.ReadByte
  if eof then .ret (.error "Invalid name") name
  else if size = 0 then
    let name := if st.readerIndex ≠ 0 then name.SeekStart st.readerIndex else name
    .ret (.ok (Join st.labels)) name
  else
    let (size, readerIndex, name) :=
      if size &&& 0b11000000 = 0b11000000 then
        let offset := size &&& 0b00111111
        let (nextByte, _, name) := name.ReadByte
        let pointer := Uint16 [offset, nextByte]
        let readerIndex := if st.readerIndex = 0 then name.SeekCurrent else st.readerIndex
        let name := name.SeekStart pointer
        let (size, _, name) := name.ReadByte
        (size, readerIndex, name)
      else (size, st.readerIndex, name)
    let (label, name) := name.Read size
    .again ⟨name, readerIndex, st.labels ++ [label]⟩

/-- The loop of `decodeDNSName`, at most `fuel` passes; `none` when it is still running. -/
def decodeDNSNameLoop : Nat → DecodeState → Option (Except String (List Nat) × Reader)
  | 0, _ => none
  | fuel + 1, st =>
    match decodeDNSNameBody st with
    | .ret result name => some (result, name)
    | .again st => decodeDNSNameLoop fuel st

/-- Model of `decodeDNSName`: the returned string or error, and the reader afterwards. -/
def decodeDNSName (fuel : Nat) (name : Reader) : Option (Except String (List Nat) × Reader) :=
  decodeDNSNameLoop fuel ⟨name, 0, []⟩

/-- Model of `parseDNSQuestion`; the `panic` is `Except.error`. -/
def parseDNSQuestion (fuel : Nat) (question : Reader) :
    Option (Except String (DNSQuestion × Reader)) :=
  match decodeDNSName fuel question with
  | none => none
  | some (.error err, _) => some (.error err)
  | some (.ok name, question) =>
    let (typeBytes, question) := question.Read 2
    let (classBytes, question) := question.Read 2
    some (.ok ({ Name := name, Typ := Uint16 typeBytes, Class := Uint16 classBytes }, question))

/-- Model of `parseDNSRecord`; the `panic` is `Except.error`. In the `NS` case the error of
the second `decodeDNSName` is dropped and the name is then the empty string. -/
def parseDNSRecord (fuel : Nat) (record : Reader) :
    Option (Except String (DNSRecord × Reader)) :=
  match decodeDNSName fuel record with
  | none => none
  | some (.error err, _) => some (.error err)
  | some (.ok name, record) =>
    let (typeBytes, record) := record.Read 2
    let (classBytes, record) := record.Read 2
    let (ttlBytes, record) := record.Read 4
    let (dataLengthBytes, record) := record.Read 2
    let recordType := Uint16 typeBytes
    let recordClass := Uint16 classBytes
    let recordTTL := Uint32 ttlBytes
    if recordType = NS then
      match decodeDNSName fuel record with
      | none => none
      | some (res, record) =>
        let dnsName := match res with
          | .ok dnsName => dnsName
          | .error _ => []
        some (.ok ({ Name := name, Typ := recordType, Class := recordClass, TTL := recordTTL,
                     data := dnsName }, record))
    else if recordType = A then
      let dataLength := Uint16 dataLengthBytes
      let (dataBytes, record) := record.Read dataLength
      some (.ok ({ Name := name, Typ := recordType, Class := recordClass, TTL := recordTTL,
                   data := dataBytes }, record))
    else if recordType = AAAA then
      let dataLength := Uint16 dataLengthBytes
      let (dataBytes, record) := record.Read dataLength
      some (.ok ({ Name := name, Typ := recordType, Class := recordClass, TTL := recordTTL,
                   data := dataBytes }, record))
    else
      let dataLength := Uint16 dataLengthBytes
      let (dataBytes, record) := record.Read dataLength
      some (.ok ({ Name := name, Typ := recordType, Class := recordClass, TTL := recordTTL,
                   data := dataBytes }, record))

/-- The loop `for i := 0; i < questionLen; i++` of `parseDNSPacket`, `n` passes left. -/
def parseQuestions (fuel : Nat) :
    Nat → Reader → List DNSQuestion → Option (Except String (List DNSQuestion × Reader))
  | 0, packet, dnsQuestions => some (.ok (dnsQuestions, packet))
  | n + 1, packet, dnsQuestions =>
    match parseDNSQuestion fuel packet with
    | none => none
    | some (.error err) => some (.error err)
    | some (.ok (dnsQuestion, packet)) =>
      parseQuestions fuel n packet (dnsQuestions ++ [dnsQuestion])

/-- The three record loops of `parseDNSPacket`, `n` passes left. -/
def parseRecords (fuel : Nat) :
    Nat → Reader → List DNSRecord → Option (Except String (List DNSRecord × Reader))
  | 0, packet, records => some (.ok (records, packet))
  | n + 1, packet, records =>
    match parseDNSRecord fuel packet with
    | none => none
    | some (.error err) => some (.error err)
    | some (.ok (record, packet)) => parseRecords fuel n packet (records ++ [record])

/-- Model of `parseDNSPacket`. -/
def parseDNSPacket (fuel : Nat) (packet : Reader) : Option (Except String (DNSPacket × Reader)) :=
  let (header, packet) := parseDNSHeader packet
  match parseQuestions fuel header.QDCount packet [] with
  | none => none
  | some (.error err) => some (.error err)
  | some (.ok (dnsQuestions, packet)) =>
    match parseRecords fuel header.ANCount packet [] with
    | none => none
    | some (.error err) => some (.error err)
    | some (.ok (answers, packet)) =>
      match parseRecords fuel header.NSCount packet [] with
      | none => none
      | some (.error err) => some (.error err)
      | some (.ok (authorities, packet)) =>
        match parseRecords fuel header.ARCount packet [] with
        | none => none
        | some (.error err) => some (.error err)
        | some (.ok (additionals, packet)) =>
          some (.ok ({ Header := header, Questions := dnsQuestions, Answers := answers,
                       Authorities := authorities, Additionals := additionals }, packet))

/-! ## part2.go, continued -/

/-- Model of the digit loop of `strconv.FormatInt(v, 10)` for `v ≥ 0`: the digits are
written from the last one; `fuel` bounds the number of digits. -/
def formatBits : Nat → Nat → List Nat → List Nat
  | 0, _, acc => acc
  | fuel + 1, u, acc =>
    if u < 10 then (48 + u) :: acc
    else formatBits fuel (u / 10) ((48 + u % 10) :: acc)

/-- Model of `strconv.FormatInt(v, 10)` for `v ≥ 0`. -/
def FormatInt (v : Nat) : List Nat := formatBits (v + 1) v []

/-- Model of `dataIPtoString`. -/
def dataIPtoString (dataIP : List Nat) : List Nat :=
  let dataParts := dataIP.foldl (fun dataParts val => dataParts ++ [FormatInt val]) []
  Join dataParts

/-- The transport: `SendQuery(domain, nameserver, recordType)` as a function to the response
bytes or an error. -/
abbrev Transport := List Nat → List Nat → Nat → Except String (List Nat)

/-- Model of `LookupDomain`. The result is the returned pair (string, error), the error
`none` when it is `nil`; `Except.error` is a panic. -/
def LookupDomain (SendQuery : Transport) (fuel : Nat) (domain : List Nat) :
    Option (Except String (List Nat × Option String)) :=
  match SendQuery domain (ascii "8.8.8.8:53") A with
  | .error _ => some (.ok ([], none))
  | .ok resp =>
    let respReader := NewReader resp
    match parseDNSPacket fuel respReader with
    | none => none
    | some (.error err) => some (.error err)
    | some (.ok (dnsPacket, _)) =>
      match dnsPacket.Answers with
      | [] => some (.error "index out of range")
      | answer :: _ => some (.ok (dataIPtoString answer.data, none))

/-- What `decodeDNSNameSimple` does: return a pair (string, error), or panic. -/
inductive SimpleOutcome where
  | ret (domain : List Nat) (err : Option String)
  | panic (msg : String)
deriving DecidableEq, Repr

/-- The loop of `decodeDNSNameSimple` on the variables `name`, `size`, `i`, `labels`, at
most `fuel` passes. A slice has its length as capacity, so `name[i]` panics for
`i ≥ len(name)` and `name[i : i+size]` panics for `i + size > len(name)`. -/
def decodeDNSNameSimpleLoop :
    Nat → List Nat → Nat → Nat → List (List Nat) → Option SimpleOutcome
  | 0, _, _, _, _ => none
  | fuel + 1, name, size, i, labels =>
    if name.length ≤ 0 then some (.ret [] (some "Invalid name"))
    else if name.length ≤ i then some (.panic "index out of range")
    else if name.getD i 0 = 0 then
      if labels.length = 0 then some (.ret [] none) else some (.ret (Join labels) none)
    else if size = 0 then decodeDNSNameSimpleLoop fuel name (name.getD i 0) (i + 1) labels
    else if size > name.length then some (.ret [] (some "Invalid name"))
    else if name.length < i + size then some (.panic "slice bounds out of range")
    else
      let label := (name.drop i).take size
      decodeDNSNameSimpleLoop fuel (name.drop (i + size)) 0 0 (labels ++ [label])

/-- Model of `decodeDNSNameSimple`. -/
def decodeDNSNameSimple (fuel : Nat) (name : List Nat) : Option SimpleOutcome :=
  decodeDNSNameSimpleLoop fuel name 0 0 []

/-! ## part3.go -/

/-- One call of `SendQuery` made by `Resolve`. -/
structure Query where
  domain : List Nat
  nameserver : List Nat
  recordType : Nat
deriving DecidableEq, Repr

/-- The loop over `dnsPacket.Answers` in `Resolve`: the string returned, if any. -/
def answersLoop : List DNSRecord → Option (List Nat)
  | [] => none
  | answer :: rest =>
    if answer.Typ = A then some (dataIPtoString answer.data) else answersLoop rest

/-- The loop over `dnsPacket.Additionals` in `Resolve`: the value of `newNameserver`. -/
def additionalsLoop : List DNSRecord → List Nat → List Nat
  | [], newNameserver => newNameserver
  | additional :: rest, newNameserver =>
    if additional.Typ = A then
      let newNameserver := dataIPtoString additional.data
      if newNameserver.length > 0 then newNameserver else additionalsLoop rest newNameserver
    else additionalsLoop rest newNameserver

/-- The loop over `dnsPacket.Authorities` in `Resolve`: the `nameserverDomain` of the
nested call, if any. -/
def authoritiesLoop : List DNSRecord → Option (List Nat)
  | [] => none
  | authority :: rest => if authority.Typ = NS then some authority.data else authoritiesLoop rest

/-- The root server `Resolve` starts from. -/
def rootNameserver : List Nat := ascii "192.33.4.12"

/-- The `for` loop of `Resolve` with the current `nameserver`; `fuel` bounds the passes and
the nested calls together, `dfuel` the passes of each name decode. The result is the
returned string (`Resolve` returns no error but `nil`), `Except.error` for a panic, `none`
while still running; with it the queries sent, in order. -/
def ResolveLoop (SendQuery : Transport) (dfuel : Nat) :
    Nat → List Nat → Nat → List Nat → Option (Except String (List Nat)) × List Query
  | 0, _, _, _ => (none, [])
  | fuel + 1, domain, recordType, nameserver =>
    let query : Query := ⟨domain, nameserver ++ ascii ":53", recordType⟩
    let resp :=
      match SendQuery domain (nameserver ++ ascii ":53") recordType with
      | .ok resp => resp
      | .error _ => []
    let respReader := NewReader resp
    match parseDNSPacket dfuel respReader with
    | none => (none, [query])
    | some (.error err) => (some (.error err), [query])
    | some (.ok (dnsPacket, _)) =>
      match answersLoop dnsPacket.Answers with
      | some ip => (some (.ok ip), [query])
      | none =>
        let newNameserver := additionalsLoop dnsPacket.Additionals []
        if newNameserver ≠ [] then
          let (res, log) := ResolveLoop SendQuery dfuel fuel domain recordType newNameserver
          (res, query :: log)
        else
          match authoritiesLoop dnsPacket.Authorities with
          | some nameserverDomain =>
            let (res, log) := ResolveLoop SendQuery dfuel fuel nameserverDomain A rootNameserver
            match res with
            | none => (none, query :: log)
            | some (.error err) => (some (.error err), query :: log)
            | some (.ok _) => (some (.error "something went wrong"), query :: log)
          | none => (some (.error "something went wrong"), [query])

/-- Model of `Resolve`. -/
def Resolve (SendQuery : Transport) (dfuel fuel : Nat) (domain : List Nat) (recordType : Nat) :
    Option (Except String (List Nat)) × List Query :=
  ResolveLoop SendQuery dfuel fuel domain recordType rootNameserver

/-! ## Wire form of a label sequence (specification side) -/

/-- The wire form of a sequence of labels, as the specification words it: for each label
one length byte (the byte length truncated to 8 bits) followed by the label's bytes. -/
def wireLabels : List (List Nat) → List Nat
  | [] => []
  | l :: ls => (l.length % 256) :: (l ++ wireLabels ls)

/-- A label as it may stand in a name: not empty, at most 63 bytes. -/
def WellFormedLabel (l : List Nat) : Prop := 0 < l.length ∧ l.length ≤ 63

instance (l : List Nat) : Decidable (WellFormedLabel l) := by
  unfold WellFormedLabel; infer_instance

/-- A header all of whose six fields are 16-bit values. -/
def DNSHeader.Valid (h : DNSHeader) : Prop :=
  h.ID < 65536 ∧ h.Flags < 65536 ∧ h.QDCount < 65536 ∧ h.ANCount < 65536 ∧
  h.NSCount < 65536 ∧ h.ARCount < 65536

instance (h : DNSHeader) : Decidable h.Valid := by
  unfold DNSHeader.Valid; infer_instance

/-- The size and the reader with which the loop body of `decodeDNSName` reaches
`make([]byte, size)`: after the pointer has been followed when the length byte is one. -/
def labelStart (st : DecodeState) : Nat × Reader :=
  if st.name.ReadByte.1 &&& 0b11000000 = 0b11000000 then
    (((st.name.ReadByte.2.2.ReadByte.2.2.SeekStart
        (Uint16 [st.name.ReadByte.1 &&& 0b00111111, st.name.ReadByte.2.2.ReadByte.1])).ReadByte).1,
     ((st.name.ReadByte.2.2.ReadByte.2.2.SeekStart
        (Uint16 [st.name.ReadByte.1 &&& 0b00111111, st.name.ReadByte.2.2.ReadByte.1])).ReadByte).2.2)
  else (st.name.ReadByte.1, st.name.ReadByte.2.2)

/-- The `n` bytes at offset `o` of `buf`, bytes beyond the end of the buffer read as zero. -/
def window (buf : List Nat) (o n : Nat) : List Nat :=
  (List.range n).map (fun k => buf.getD (o + k) 0)

/-- The big-endian 16-bit value of the 2 bytes at offset `o` of `buf` (zero beyond the end). -/
def be16 (buf : List Nat) (o : Nat) : Nat := buf.getD o 0 * 256 + buf.getD (o + 1) 0

/-- The big-endian 32-bit value of the 4 bytes at offset `o` of `buf` (zero beyond the end). -/
def be32 (buf : List Nat) (o : Nat) : Nat :=
  buf.getD o 0 * 16777216 + buf.getD (o + 1) 0 * 65536 + buf.getD (o + 2) 0 * 256 +
    buf.getD (o + 3) 0

/-- The reader `r` over `buf` stands at offset `o`, or both are at or beyond the end. -/
def AtOffset (buf : List Nat) (r : Reader) (o : Nat) : Prop :=
  r.s = buf ∧ (r.i = o ∨ (buf.length ≤ r.i ∧ buf.length ≤ o))

/-- A response message: header (1 question, 1 answer), the question `a A IN`, and an
`A` answer whose owner name is a pointer to offset 12. -/
def exampleResponse : List Nat :=
  [0x13, 0x14, 0x81, 0x80, 0, 1, 0, 1, 0, 0, 0, 0, 1, 97, 0, 0, 1, 0, 1,
   192, 12, 0, 1, 0, 1, 0, 0, 0, 60, 0, 4, 93, 184, 216, 34]

/-- The packet that `exampleResponse` parses to. -/
def examplePacket : DNSPacket :=
  { Header := { ID := 4884, Flags := 33152, QDCount := 1, ANCount := 1, NSCount := 0,
                ARCount := 0 },
    Questions := [{ Name := [97], Typ := 1, Class := 1 }],
    Answers := [{ Name := [97], Typ := 1, Class := 1, TTL := 60, data := [93, 184, 216, 34] }],
    Authorities := [],
    Additionals := [] }

/-- At offset `q` of `buf` stands a name with the labels `labels`, occupying `occ` bytes
there, of one of the two shapes on which `decodeDNSName` gives the labels: well-formed
labels ending in a zero terminator, or well-formed labels ending in a 2-byte pointer to an
earlier plain name of at least one label. A pointer whose target is the root name (the
zero terminator alone) is not of these shapes: there `decodeDNSName` takes the terminator
for an empty label and reads on. -/
def NameAt (buf : List Nat) (q : Nat) (labels : List (List Nat)) (occ : Nat) : Prop :=
  (∀ l ∈ labels, WellFormedLabel l) ∧
  ((∃ rest, buf.drop q = wireLabels labels ++ 0 :: rest ∧
      occ = (wireLabels labels).length + 1) ∨
   (∃ labels1 labels2 p rest1 rest2, labels = labels1 ++ labels2 ∧ labels2 ≠ [] ∧
      p < 16384 ∧
      buf.drop q = wireLabels labels1 ++ (192 + p / 256) :: p % 256 :: rest1 ∧
      buf.drop p = wireLabels labels2 ++ 0 :: rest2 ∧
      p + (wireLabels labels2).length + 1 ≤ q ∧
      occ = (wireLabels labels1).length + 2))

/-- A response message with one answer of type `NS` whose payload name `[1, 'b']` lacks
its terminator: the message ends after the label. -/
def truncatedNSResponse : List Nat :=
  [0, 0, 0, 0, 0, 0, 0, 1, 0, 0, 0, 0,
   1, 97, 0, 0, 2, 0, 1, 0, 0, 0, 60, 0, 2, 1, 98]

/-- A referral: no question, no answer, no additional record, one authority record
`a NS ns`. -/
def referralResponse : List Nat :=
  [0, 0, 0, 0, 0, 0, 0, 0, 0, 1, 0, 0,
   1, 97, 0, 0, 2, 0, 1, 0, 0, 0, 60, 0, 4, 2, 110, 115, 0]

/-- A transport that answers a query for `ns` with `exampleResponse` (an `A` answer
93.184.216.34) and every other query with `referralResponse`. -/
def referralTransport : Transport :=
  fun domain _ _ => if domain = ascii "ns" then .ok exampleResponse else .ok referralResponse

/-- A message in which the pointer at offset 7 targets offset 3, where a second pointer (to
the plain name `a` at offset 0) stands; the name `b` followed by the first pointer starts
at offset 5. -/
def pointerToPointer : List Nat := [1, 97, 0, 192, 0, 1, 98, 192, 3]

/-- The number a string of decimal digits stands for. -/
def parseDecimal (digits : List Nat) : Nat := digits.foldl (fun acc c => acc * 10 + (c - 48)) 0

/-- The string `digits` is the unsigned decimal representation of the byte `n`: one to
three decimal digits, no leading zero, with the value `n`. -/
def IsDecimalOf (digits : List Nat) (n : Nat) : Prop :=
  digits ≠ [] ∧ digits.length ≤ 3 ∧ (∀ c ∈ digits, 48 ≤ c ∧ c ≤ 57) ∧
  (digits = [48] ∨ digits.head? ≠ some 48) ∧ parseDecimal digits = n

instance (digits : List Nat) (n : Nat) : Decidable (IsDecimalOf digits n) := by
  unfold IsDecimalOf; infer_instance

/-- A referral with glue: no question, no answer, no authority record, one additional
record `ns A 10.0.0.1`. -/
def glueResponse : List Nat :=
  [0, 0, 0, 0, 0, 0, 0, 0, 0, 0, 0, 1,
   2, 110, 115, 0, 0, 1, 0, 1, 0, 0, 0, 60, 0, 4, 10, 0, 0, 1]

/-- The packet that `glueResponse` parses to. -/
def gluePacket : DNSPacket :=
  { Header := { ID := 0, Flags := 0, QDCount := 0, ANCount := 0, NSCount := 0, ARCount := 1 },
    Questions := [], Answers := [], Authorities := [],
    Additionals := [{ Name := [110, 115], Typ := 1, Class := 1, TTL := 60,
                      data := [10, 0, 0, 1] }] }

/-- A transport in which the nameserver `10.0.0.1:53` answers with `exampleResponse` and
every other nameserver with `glueResponse`. -/
def glueTransport : Transport :=
  fun _ nameserver _ =>
    if nameserver = ascii "10.0.0.1:53" then .ok exampleResponse else .ok glueResponse

/-- The variables of the loop of `decodeDNSName` after `n` passes from `st`, when none of
these passes returns. -/
def decodeStateAfter : Nat → DecodeState → Option DecodeState
  | 0, st => some st
  | n + 1, st =>
    match decodeDNSNameBody st with
    | .again st2 => decodeStateAfter n st2
    | .ret _ _ => none

/-- The message `[1, 'a', 0xC0, 0x00]`: the pointer at offset 2 targets the label before
it. -/
def pointerCycle : List Nat := [1, 97, 192, 0]

/-- Bytes holding the root name at offset 0 and, from offset 1, a record `a NS` whose
payload is the label `ns` followed by a pointer to offset 0, the root name. -/
def rootPointerRecord : List Nat :=
  [0, 1, 97, 0, 0, 2, 0, 1, 0, 0, 0, 60, 0, 5, 2, 110, 115, 192, 0]

/-- A response of 1024 bytes, as `SendQuery` returns them: `exampleResponse` with one
additional record announced, whose owner name is the pointer `[0xFF, 0xFF]` to offset
16383, beyond the message. -/
def answerBadAdditionalResponse : List Nat :=
  [0x13, 0x14, 0x81, 0x80, 0, 1, 0, 1, 0, 0, 0, 1, 1, 97, 0, 0, 1, 0, 1,
   192, 12, 0, 1, 0, 1, 0, 0, 0, 60, 0, 4, 93, 184, 216, 34, 255, 255] ++
  List.replicate 987 0

/-- A response of 1024 bytes: `glueResponse` with a second additional record announced,
whose owner name is the pointer `[0xFF, 0xFF]` to offset 16383, beyond the message. -/
def glueBadAdditionalResponse : List Nat :=
  [0, 0, 0, 0, 0, 0, 0, 0, 0, 0, 0, 2,
   2, 110, 115, 0, 0, 1, 0, 1, 0, 0, 0, 60, 0, 4, 10, 0, 0, 1, 255, 255] ++
  List.replicate 992 0

/-- A transport in which the nameserver `10.0.0.1:53` answers with `exampleResponse` and
every other nameserver with `glueBadAdditionalResponse`. -/
def glueBadTransport : Transport :=
  fun _ nameserver _ =>
    if nameserver = ascii "10.0.0.1:53" then .ok exampleResponse
    else .ok glueBadAdditionalResponse

/-- A response with all four sections: the question `a A IN`, the answer
`a A 93.184.216.34`, the authority record `a NS ns` and the additional record
`ns A 10.0.0.1`. -/
def fullResponse : List Nat :=
  [0x13, 0x14, 0x81, 0x80, 0, 1, 0, 1, 0, 1, 0, 1,
   1, 97, 0, 0, 1, 0, 1,
   192, 12, 0, 1, 0, 1, 0, 0, 0, 60, 0, 4, 93, 184, 216, 34,
   192, 12, 0, 2, 0, 1, 0, 0, 0, 60, 0, 4, 2, 110, 115, 0,
   2, 110, 115, 0, 0, 1, 0, 1, 0, 0, 0, 60, 0, 4, 10, 0, 0, 1]

/-- The packet that `fullResponse` parses to. -/
def fullPacket : DNSPacket :=
  { Header := { ID := 4884, Flags := 33152, QDCount := 1, ANCount := 1, NSCount := 1,
                ARCount := 1 },
    Questions := [{ Name := [97], Typ := 1, Class := 1 }],
    Answers := [{ Name := [97], Typ := 1, Class := 1, TTL := 60, data := [93, 184, 216, 34] }],
    Authorities := [{ Name := [97], Typ := 2, Class := 1, TTL := 60, data := [110, 115] }],
    Additionals := [{ Name := [110, 115], Typ := 1, Class := 1, TTL := 60,
                      data := [10, 0, 0, 1] }] }

/-! ## Lemmas: Split, Join, wireLabels -/

theorem Split_ne_nil (d : List Nat) : Split d ≠ [] := by
  induction d with
  | nil => simp [Split]
  | cons c cs ih =>
    unfold Split
    split
    · simp
    · split <;> simp

theorem Join_cons_cons (l m : List Nat) (ls : List (List Nat)) :
    Join (l :: m :: ls) = l ++ dot :: Join (m :: ls) := rfl

theorem Join_Split (d : List Nat) : Join (Split d) = d := by
  induction d with
  | nil => rfl
  | cons c cs ih =>
    unfold Split
    split
    · next h =>
      obtain ⟨m, ms, hm⟩ := List.exists_cons_of_ne_nil (Split_ne_nil cs)
      rw [hm, Join_cons_cons, ← hm, ih, h]; rfl
    · split
      · next h => exact absurd h (Split_ne_nil cs)
      · next l ls h =>
        rw [h] at ih
        cases ls with
        | nil => simp only [Join] at ih ⊢; rw [ih]
        | cons m ms =>
          rw [Join_cons_cons] at ih ⊢
          rw [← ih]; rfl

theorem wireLabels_append (xs ys : List (List Nat)) :
    wireLabels (xs ++ ys) = wireLabels xs ++ wireLabels ys := by
  induction xs with
  | nil => rfl
  | cons x xs ih => simp [wireLabels, ih]

theorem encode_foldl (ls : List (List Nat)) (acc : List Nat) :
    ls.foldl (fun buffer label => (buffer ++ [label.length % 256]) ++ label) acc
      = acc ++ wireLabels ls := by
  induction ls generalizing acc with
  | nil => simp [wireLabels]
  | cons l ls ih => rw [List.foldl_cons, ih]; simp [wireLabels]

theorem wireLabels_Split_length (d : List Nat) :
    (wireLabels (Split d)).length = d.length + 1 := by
  induction d with
  | nil => rfl
  | cons c cs ih =>
    unfold Split
    split
    · simp [wireLabels, ih]
    · split
      · next h => exact absurd h (Split_ne_nil cs)
      · next l ls h =>
        rw [h] at ih
        simp [wireLabels] at ih ⊢
        omega

theorem encodeDNSName_eq (domain : List Nat) :
    encodeDNSName domain = wireLabels (Split domain) ++ [0] := by
  show _ ++ [0] = _
  rw [encode_foldl]; rfl

/-! ## C5 -/

/-- C5: `encodeDNSName domain` is, for the labels obtained by splitting the domain on the
dot, each label's length byte (length modulo 256) followed by its bytes, then one zero
byte; the output is `len(domain) + 2` bytes long; `www.google.com` and `example.com` give
the byte sequences of the test table. -/
theorem encodeDNSName_spec :
    (∀ domain : List Nat,
      encodeDNSName domain = wireLabels (Split domain) ++ [0] ∧
      (encodeDNSName domain).length = domain.length + 2) ∧
    encodeDNSName (ascii "www.google.com")
      = [3, 119, 119, 119, 6, 103, 111, 111, 103, 108, 101, 3, 99, 111, 109, 0] ∧
    encodeDNSName (ascii "example.com")
      = [7, 101, 120, 97, 109, 112, 108, 101, 3, 99, 111, 109, 0] := by
  refine ⟨fun domain => ⟨encodeDNSName_eq domain, ?_⟩, by decide, by decide⟩
  rw [encodeDNSName_eq]
  simp [wireLabels_Split_length]

/-! ## C6 -/

theorem toBytes_eq (h : DNSHeader) :
    h.toBytes =
      [(h.ID >>> 8) % 256, h.ID % 256, (h.Flags >>> 8) % 256, h.Flags % 256,
       (h.QDCount >>> 8) % 256, h.QDCount % 256, (h.ANCount >>> 8) % 256, h.ANCount % 256,
       (h.NSCount >>> 8) % 256, h.NSCount % 256, (h.ARCount >>> 8) % 256, h.ARCount % 256] := by
  simp [DNSHeader.toBytes, PutUint16, List.replicate, List.set]

theorem be16_lt (v : Nat) (hv : v < 65536) : (v >>> 8) % 256 = v / 256 := by
  rw [Nat.shiftRight_eq_div_pow]; omega

theorem parseDNSHeader_twelve (b0 b1 b2 b3 b4 b5 b6 b7 b8 b9 b10 b11 : Nat) (rest : List Nat) :
    parseDNSHeader (NewReader ([b0, b1, b2, b3, b4, b5, b6, b7, b8, b9, b10, b11] ++ rest)) =
      ({ ID := b0 * 256 + b1, Flags := b2 * 256 + b3, QDCount := b4 * 256 + b5,
         ANCount := b6 * 256 + b7, NSCount := b8 * 256 + b9, ARCount := b10 * 256 + b11 },
       ⟨[b0, b1, b2, b3, b4, b5, b6, b7, b8, b9, b10, b11] ++ rest, 12⟩) := by
  simp [parseDNSHeader, NewReader, Reader.Read, Uint16]

/-- C6: for a header of six 16-bit values, `toBytes` gives exactly 12 bytes, the fields
ID, Flags, QDCount, ANCount, NSCount, ARCount in this order, each big-endian, and
`parseDNSHeader` on a fresh reader over these bytes gives the same header back and leaves
the cursor at offset 12. -/
theorem header_roundtrip (h : DNSHeader) (hv : h.Valid) :
    h.toBytes =
      [h.ID / 256, h.ID % 256, h.Flags / 256, h.Flags % 256,
       h.QDCount / 256, h.QDCount % 256, h.ANCount / 256, h.ANCount % 256,
       h.NSCount / 256, h.NSCount % 256, h.ARCount / 256, h.ARCount % 256] ∧
    h.toBytes.length = 12 ∧
    parseDNSHeader (NewReader h.toBytes) = (h, ⟨h.toBytes, 12⟩) := by
  obtain ⟨h1, h2, h3, h4, h5, h6⟩ := hv
  have e : h.toBytes =
      [h.ID / 256, h.ID % 256, h.Flags / 256, h.Flags % 256,
       h.QDCount / 256, h.QDCount % 256, h.ANCount / 256, h.ANCount % 256,
       h.NSCount / 256, h.NSCount % 256, h.ARCount / 256, h.ARCount % 256] := by
    rw [toBytes_eq, be16_lt _ h1, be16_lt _ h2, be16_lt _ h3, be16_lt _ h4, be16_lt _ h5,
      be16_lt _ h6]
  refine ⟨e, by rw [e]; rfl, ?_⟩
  rw [e]
  have := parseDNSHeader_twelve (h.ID / 256) (h.ID % 256) (h.Flags / 256) (h.Flags % 256)
    (h.QDCount / 256) (h.QDCount % 256) (h.ANCount / 256) (h.ANCount % 256)
    (h.NSCount / 256) (h.NSCount % 256) (h.ARCount / 256) (h.ARCount % 256) []
  rw [List.append_nil] at this
  rw [this, Nat.div_add_mod' h.ID 256, Nat.div_add_mod' h.Flags 256,
    Nat.div_add_mod' h.QDCount 256, Nat.div_add_mod' h.ANCount 256,
    Nat.div_add_mod' h.NSCount 256, Nat.div_add_mod' h.ARCount 256]

theorem header_roundtrip_witness :
    (⟨0x1314, 0x8180, 1, 2, 0, 65535⟩ : DNSHeader).Valid ∧
    parseDNSHeader (NewReader (⟨0x1314, 0x8180, 1, 2, 0, 65535⟩ : DNSHeader).toBytes) =
      (⟨0x1314, 0x8180, 1, 2, 0, 65535⟩,
       ⟨(⟨0x1314, 0x8180, 1, 2, 0, 65535⟩ : DNSHeader).toBytes, 12⟩) :=
  ⟨by decide, (header_roundtrip ⟨0x1314, 0x8180, 1, 2, 0, 65535⟩ (by decide)).2.2⟩

/-! ## C7 -/

theorem shl16_eq (x k : Nat) (h : x * 2 ^ k < 65536) : shl16 x k = x * 2 ^ k := by
  unfold shl16
  rw [Nat.shiftLeft_eq, Nat.mod_eq_of_lt h]

theorem or_eq_add (a b k : Nat) (hb : b < 2 ^ k) (ha : 2 ^ k ∣ a) : a ||| b = a + b := by
  obtain ⟨c, rfl⟩ := ha
  exact (Nat.mul_add_lt_is_or hb c).symm

theorem setFlags_sum (h : DNSHeader) (qr opcode aa tc rd ra z rcode : Nat)
    (hqr : qr < 2) (hop : opcode < 16) (haa : aa < 2) (htc : tc < 2) (hrd : rd < 2)
    (hra : ra < 2) (hz : z < 8) (hrc : rcode < 16) :
    (h.setFlags qr opcode aa tc rd ra z rcode).Flags =
      qr * 32768 + opcode * 2048 + aa * 1024 + tc * 512 + rd * 256 + ra * 128 + z * 16 +
        rcode := by
  show shl16 qr 15 ||| shl16 opcode 11 ||| shl16 aa 10 ||| shl16 tc 9 |||
      shl16 rd 8 ||| shl16 ra 7 ||| shl16 z 4 ||| rcode = _
  rw [shl16_eq qr 15 (by omega), shl16_eq opcode 11 (by omega), shl16_eq aa 10 (by omega),
    shl16_eq tc 9 (by omega), shl16_eq rd 8 (by omega), shl16_eq ra 7 (by omega),
    shl16_eq z 4 (by omega)]
  norm_num
  rw [or_eq_add (qr * 32768) (opcode * 2048) 15 (by omega) (by omega),
    or_eq_add _ (aa * 1024) 11 (by omega) (by omega),
    or_eq_add _ (tc * 512) 10 (by omega) (by omega),
    or_eq_add _ (rd * 256) 9 (by omega) (by omega),
    or_eq_add _ (ra * 128) 8 (by omega) (by omega),
    or_eq_add _ (z * 16) 7 (by omega) (by omega),
    or_eq_add _ rcode 4 (by omega) (by omega)]

theorem shr_mask (x k n : Nat) : (x >>> k) &&& (2 ^ n - 1) = x / 2 ^ k % 2 ^ n := by
  rw [Nat.and_pow_two_sub_one_eq_mod, Nat.shiftRight_eq_div_pow]

/-- C7: for field values within their widths, `setFlags` sets Flags to
`qr*2^15 + opcode*2^11 + aa*2^10 + tc*2^9 + rd*2^8 + ra*2^7 + z*2^4 + rcode`; each field
is recovered from Flags by shifting and masking; setting only `rd = 1` gives `0x0100` and
setting only `qr = 1` gives `0x8000`. -/
theorem setFlags_spec (h : DNSHeader) (qr opcode aa tc rd ra z rcode : Nat)
    (hqr : qr < 2) (hop : opcode < 16) (haa : aa < 2) (htc : tc < 2) (hrd : rd < 2)
    (hra : ra < 2) (hz : z < 8) (hrc : rcode < 16) :
    (h.setFlags qr opcode aa tc rd ra z rcode).Flags =
      qr * 2 ^ 15 + opcode * 2 ^ 11 + aa * 2 ^ 10 + tc * 2 ^ 9 + rd * 2 ^ 8 + ra * 2 ^ 7 +
        z * 2 ^ 4 + rcode ∧
    ((h.setFlags qr opcode aa tc rd ra z rcode).Flags >>> 15) &&& 1 = qr ∧
    ((h.setFlags qr opcode aa tc rd ra z rcode).Flags >>> 11) &&& 15 = opcode ∧
    ((h.setFlags qr opcode aa tc rd ra z rcode).Flags >>> 10) &&& 1 = aa ∧
    ((h.setFlags qr opcode aa tc rd ra z rcode).Flags >>> 9) &&& 1 = tc ∧
    ((h.setFlags qr opcode aa tc rd ra z rcode).Flags >>> 8) &&& 1 = rd ∧
    ((h.setFlags qr opcode aa tc rd ra z rcode).Flags >>> 7) &&& 1 = ra ∧
    ((h.setFlags qr opcode aa tc rd ra z rcode).Flags >>> 4) &&& 7 = z ∧
    (h.setFlags qr opcode aa tc rd ra z rcode).Flags &&& 15 = rcode ∧
    (h.setFlags 0 0 0 0 1 0 0 0).Flags = 0x0100 ∧
    (h.setFlags 1 0 0 0 0 0 0 0).Flags = 0x8000 := by
  have hs := setFlags_sum h qr opcode aa tc rd ra z rcode hqr hop haa htc hrd hra hz hrc
  rw [hs]
  refine ⟨by norm_num, ?_, ?_, ?_, ?_, ?_, ?_, ?_, ?_, rfl, rfl⟩
  · rw [show (1 : Nat) = 2 ^ 1 - 1 by norm_num, shr_mask]; norm_num; omega
  · rw [show (15 : Nat) = 2 ^ 4 - 1 by norm_num, shr_mask]; norm_num; omega
  · rw [show (1 : Nat) = 2 ^ 1 - 1 by norm_num, shr_mask]; norm_num; omega
  · rw [show (1 : Nat) = 2 ^ 1 - 1 by norm_num, shr_mask]; norm_num; omega
  · rw [show (1 : Nat) = 2 ^ 1 - 1 by norm_num, shr_mask]; norm_num; omega
  · rw [show (1 : Nat) = 2 ^ 1 - 1 by norm_num, shr_mask]; norm_num; omega
  · rw [show (7 : Nat) = 2 ^ 3 - 1 by norm_num, shr_mask]; norm_num; omega
  · rw [show (15 : Nat) = 2 ^ 4 - 1 by norm_num, Nat.and_pow_two_sub_one_eq_mod]; norm_num; omega

theorem setFlags_spec_witness :
    (DNSHeader.setFlags ⟨7, 0, 1, 0, 0, 0⟩ 1 2 0 1 1 0 5 3).Flags =
      1 * 2 ^ 15 + 2 * 2 ^ 11 + 0 * 2 ^ 10 + 1 * 2 ^ 9 + 1 * 2 ^ 8 + 0 * 2 ^ 7 + 5 * 2 ^ 4 + 3 :=
  (setFlags_spec ⟨7, 0, 1, 0, 0, 0⟩ 1 2 0 1 1 0 5 3 (by decide) (by decide) (by decide)
    (by decide) (by decide) (by decide) (by decide) (by decide)).1

/-! ## C8 -/

theorem question_toBytes_eq (q : DNSQuestion) :
    q.toBytes = q.Name ++ [(q.Typ >>> 8) % 256, q.Typ % 256, (q.Class >>> 8) % 256,
      q.Class % 256] := by
  show PutUint16 (PutUint16 (q.Name ++ (List.replicate (q.Name.length + 4) 0).drop q.Name.length)
    q.Name.length q.Typ) (q.Name.length + 2) q.Class = _
  have e : (List.replicate (q.Name.length + 4) 0).drop q.Name.length = [0, 0, 0, 0] := by
    rw [List.drop_replicate, Nat.add_sub_cancel_left]; rfl
  rw [e]
  unfold PutUint16
  rw [List.set_append_right _ _ (by omega), List.set_append_right _ _ (by omega),
    List.set_append_right _ _ (by omega), List.set_append_right _ _ (by omega)]
  have e1 : q.Name.length + 1 - q.Name.length = 1 := by omega
  have e2 : q.Name.length + 2 - q.Name.length = 2 := by omega
  have e3 : q.Name.length + 2 + 1 - q.Name.length = 3 := by omega
  simp [List.set, e1, e2, e3]

/-- C8: `buildQuery` returns the 2-byte big-endian ID, the flags word `0x0100` when
`recursionDesired` and `0x0000` otherwise, the question count `0x0001`, three zero 16-bit
counts, then `encodeDNSName(domain)`, the record type as a big-endian 16-bit value and the
class `0x0001`; the total length is `len(domain) + 18`. The ID is the value drawn by
`rand.Intn(65535)`, the record type a `uint16`. -/
theorem buildQuery_spec (id : Nat) (domain : List Nat) (recursionDesired : Bool)
    (recordType : Nat) (hid : id < 65535) (hrt : recordType < 65536) :
    buildQuery id domain recursionDesired recordType =
      [id / 256, id % 256, (if recursionDesired then 0x01 else 0x00), 0x00, 0x00, 0x01,
       0, 0, 0, 0, 0, 0] ++ encodeDNSName domain ++
      [recordType / 256, recordType % 256, 0x00, 0x01] ∧
    (buildQuery id domain recursionDesired recordType).length = domain.length + 18 := by
  have hb : buildQuery id domain recursionDesired recordType =
      [id / 256, id % 256, (if recursionDesired then 0x01 else 0x00), 0x00, 0x00, 0x01,
       0, 0, 0, 0, 0, 0] ++ encodeDNSName domain ++
      [recordType / 256, recordType % 256, 0x00, 0x01] := by
    unfold buildQuery
    simp only [toBytes_eq, question_toBytes_eq]
    rw [be16_lt recordType hrt]
    have h1 : id % 65536 = id := Nat.mod_eq_of_lt (by omega)
    cases recursionDesired
    · simp [h1, be16_lt id (by omega), IN]
    · simp [h1, be16_lt id (by omega), IN, DNSHeader.setFlags, shl16]
  refine ⟨hb, ?_⟩
  rw [hb, encodeDNSName_eq]
  simp [wireLabels_Split_length]

theorem buildQuery_spec_witness :
    buildQuery 0x1314 (ascii "example.com") false 1 =
      [0x13, 0x14, 0, 0, 0, 1, 0, 0, 0, 0, 0, 0] ++ encodeDNSName (ascii "example.com") ++
      [0, 1, 0, 1] :=
  (buildQuery_spec 0x1314 (ascii "example.com") false 1 (by decide) (by decide)).1

/-! ## Lemmas: the reader -/

theorem lt_length_of_drop {buf : List Nat} {i b : Nat} {rest : List Nat}
    (h : buf.drop i = b :: rest) : i < buf.length := by
  by_contra hc
  rw [List.drop_eq_nil_of_le (by omega)] at h
  cases h

theorem getD_of_drop {buf : List Nat} {i b : Nat} {rest : List Nat}
    (h : buf.drop i = b :: rest) : buf.getD i 0 = b := by
  have h1 : (buf.drop i).head? = some b := by rw [h]; rfl
  rw [List.head?_drop] at h1
  rw [List.getD_eq_getElem?_getD, h1]; rfl

theorem drop_add_of_drop {buf : List Nat} {i : Nat} {l rest : List Nat}
    (h : buf.drop i = l ++ rest) : buf.drop (i + l.length) = rest := by
  rw [← List.drop_drop, h, List.drop_left]

theorem ReadByte_of_drop {buf : List Nat} {i b : Nat} {rest : List Nat}
    (h : buf.drop i = b :: rest) :
    Reader.ReadByte ⟨buf, i⟩ = (b, false, ⟨buf, i + 1⟩) := by
  have hlt := lt_length_of_drop h
  unfold Reader.ReadByte
  rw [if_neg (by simpa using hlt), getD_of_drop h]

theorem ReadByte_eof {buf : List Nat} {i : Nat} (h : buf.length ≤ i) :
    Reader.ReadByte ⟨buf, i⟩ = (0, true, ⟨buf, i⟩) := by
  unfold Reader.ReadByte
  rw [if_pos (by simpa using h)]

theorem Read_of_drop {buf : List Nat} {i : Nat} {l rest : List Nat}
    (h : buf.drop i = l ++ rest) :
    Reader.Read ⟨buf, i⟩ l.length = (l, ⟨buf, i + l.length⟩) := by
  unfold Reader.Read
  by_cases hc : i ≥ buf.length
  · rw [List.drop_eq_nil_of_le hc] at h
    have hl : l = [] := (List.append_eq_nil.mp h.symm).1
    subst hl
    simp [hc]
  · have hlen : (buf.drop i).length = l.length + rest.length := by rw [h, List.length_append]
    rw [List.length_drop] at hlen
    have hmin : min l.length (buf.length - i) = l.length := by omega
    simp only [if_neg hc, hmin, h, List.take_left', Nat.sub_self, List.replicate_zero,
      List.append_nil]

/-! ## Lemmas: one pass of the decode loop -/

theorem byte_not_pointer : ∀ n, n ≤ 63 → ¬ (n &&& 0b11000000 = 0b11000000) := by decide

theorem byte_pointer : ∀ hi, hi < 64 →
    (192 + hi) &&& 0b11000000 = 0b11000000 ∧ (192 + hi) &&& 0b00111111 = hi := by decide

/-- A pass that starts at the length byte of a well-formed label reads the label. -/
theorem body_label {buf : List Nat} {i : Nat} {l rest : List Nat} (ri : Nat)
    (acc : List (List Nat)) (hl : WellFormedLabel l)
    (h : buf.drop i = l.length :: (l ++ rest)) :
    decodeDNSNameBody ⟨⟨buf, i⟩, ri, acc⟩ = .again ⟨⟨buf, i + 1 + l.length⟩, ri, acc ++ [l]⟩ := by
  have h1 : buf.drop (i + 1) = l ++ rest := drop_add_of_drop (l := [l.length]) h
  unfold decodeDNSNameBody
  simp only [ReadByte_of_drop h, Bool.false_eq_true, if_false]
  rw [if_neg (by have := hl.1; omega), if_neg (byte_not_pointer _ hl.2)]
  simp only [Read_of_drop h1]

/-- A pass that starts at a zero byte returns the joined labels, with the cursor after the
zero byte when no pointer was followed and at the saved position otherwise. -/
theorem body_zero {buf : List Nat} {i : Nat} {rest : List Nat} (ri : Nat)
    (acc : List (List Nat)) (h : buf.drop i = 0 :: rest) :
    decodeDNSNameBody ⟨⟨buf, i⟩, ri, acc⟩ =
      .ret (.ok (Join acc)) ⟨buf, if ri ≠ 0 then ri else i + 1⟩ := by
  unfold decodeDNSNameBody
  simp only [ReadByte_of_drop h, Bool.false_eq_true, if_false, if_true]
  by_cases hr : ri = 0 <;> simp [hr, Reader.SeekStart]

/-- A pass that starts at a pointer to offset `p`, where a label of at most 255 bytes
stands, saves the position after the pointer (unless one is saved) and reads that label. -/
theorem body_pointer {buf : List Nat} {i p : Nat} {l rest rest2 : List Nat} (ri : Nat)
    (acc : List (List Nat)) (hp : p < 16384)
    (h : buf.drop i = (192 + p / 256) :: p % 256 :: rest)
    (h2 : buf.drop p = l.length :: (l ++ rest2)) :
    decodeDNSNameBody ⟨⟨buf, i⟩, ri, acc⟩ =
      .again ⟨⟨buf, p + 1 + l.length⟩, if ri = 0 then i + 2 else ri, acc ++ [l]⟩ := by
  have h1 : buf.drop (i + 1) = p % 256 :: rest := drop_add_of_drop (l := [192 + p / 256]) h
  have h3 : buf.drop (p + 1) = l ++ rest2 := drop_add_of_drop (l := [l.length]) h2
  have hb := byte_pointer (p / 256) (by omega)
  have hu : Uint16 [p / 256, p % 256] = p := by
    simp only [Uint16, List.getD_cons_zero, List.getD_cons_succ]; omega
  unfold decodeDNSNameBody
  simp only [ReadByte_of_drop h, Bool.false_eq_true, if_false]
  rw [if_neg (by omega), if_pos hb.1]
  simp only [hb.2, ReadByte_of_drop h1, hu, Reader.SeekStart, Reader.SeekCurrent,
    ReadByte_of_drop h2, Read_of_drop h3]

/-! ## Lemmas: runs of the decode loop -/

theorem loop_succ_again {st st2 : DecodeState} (fuel : Nat)
    (h : decodeDNSNameBody st = .again st2) :
    decodeDNSNameLoop (fuel + 1) st = decodeDNSNameLoop fuel st2 := by
  rw [decodeDNSNameLoop, h]

theorem loop_succ_ret {st : DecodeState} {res : Except String (List Nat)} {r : Reader}
    (fuel : Nat) (h : decodeDNSNameBody st = .ret res r) :
    decodeDNSNameLoop (fuel + 1) st = some (res, r) := by
  rw [decodeDNSNameLoop, h]

/-- A run over a sequence of well-formed labels takes one pass per label, appends the labels
and moves the cursor past them; `readerIndex` is unchanged. -/
theorem loop_labels {buf : List Nat} (ls : List (List Nat)) (hls : ∀ l ∈ ls, WellFormedLabel l)
    (i ri : Nat) (acc : List (List Nat)) (rest : List Nat) (fuel : Nat)
    (h : buf.drop i = wireLabels ls ++ rest) :
    decodeDNSNameLoop (fuel + ls.length) ⟨⟨buf, i⟩, ri, acc⟩ =
      decodeDNSNameLoop fuel ⟨⟨buf, i + (wireLabels ls).length⟩, ri, acc ++ ls⟩ := by
  induction ls generalizing i acc with
  | nil => simp [wireLabels]
  | cons l ls ih =>
    have hl : WellFormedLabel l := hls l (List.mem_cons_self _ _)
    have hmod : l.length % 256 = l.length := Nat.mod_eq_of_lt (by have := hl.2; omega)
    have h0 : buf.drop i = l.length :: (l ++ (wireLabels ls ++ rest)) := by
      rw [h]; simp [wireLabels, hmod]
    have h1 : buf.drop (i + 1 + l.length) = wireLabels ls ++ rest := by
      have := @drop_add_of_drop buf i (l.length :: l) (wireLabels ls ++ rest) (by rw [h0]; rfl)
      rw [List.length_cons] at this
      rw [← this]; congr 1; omega
    rw [List.length_cons, ← Nat.add_assoc, loop_succ_again _ (body_label ri acc hl h0),
      ih (fun m hm => hls m (List.mem_cons_of_mem _ hm)) _ _ h1]
    have e1 : i + 1 + l.length + (wireLabels ls).length = i + (wireLabels (l :: ls)).length := by
      simp only [wireLabels, List.length_cons, List.length_append, hmod]; omega
    have e2 : acc ++ [l] ++ ls = acc ++ l :: ls := by simp
    rw [e1, e2]

/-! ## C1 -/

/-- C1: for a domain whose dot-separated labels are all non-empty and at most 63 bytes
long, `decodeDNSName` on a fresh reader over `encodeDNSName(domain)` returns the domain,
with no error, and leaves the cursor at offset `len(domain) + 2`, the end of the encoded
name; one loop pass per label and one for the terminator suffice. -/
theorem decode_encode_roundtrip (domain : List Nat)
    (hwf : ∀ l ∈ Split domain, WellFormedLabel l) (fuel : Nat)
    (hfuel : (Split domain).length < fuel) :
    decodeDNSName fuel (NewReader (encodeDNSName domain)) =
      some (.ok domain, ⟨encodeDNSName domain, domain.length + 2⟩) := by
  obtain ⟨d, rfl⟩ : ∃ d, fuel = d + 1 + (Split domain).length :=
    ⟨fuel - 1 - (Split domain).length, by omega⟩
  have h0 : (encodeDNSName domain).drop 0 = wireLabels (Split domain) ++ [0] := by
    rw [List.drop_zero, encodeDNSName_eq]
  have h1 : (encodeDNSName domain).drop (0 + (wireLabels (Split domain)).length) = 0 :: [] :=
    drop_add_of_drop h0
  unfold decodeDNSName NewReader
  rw [loop_labels (Split domain) hwf 0 0 [] [0] (d + 1) h0, loop_succ_ret d (body_zero 0 _ h1),
    List.nil_append, Join_Split, wireLabels_Split_length]
  simp

theorem decode_encode_roundtrip_witness :
    (∀ l ∈ Split (ascii "www.google.com"), WellFormedLabel l) ∧
    decodeDNSName 4 (NewReader (encodeDNSName (ascii "www.google.com"))) =
      some (.ok (ascii "www.google.com"), ⟨encodeDNSName (ascii "www.google.com"), 16⟩) :=
  ⟨by decide, decode_encode_roundtrip (ascii "www.google.com") (by decide) 4 (by decide)⟩

/-! ## C2 -/

/-- C2: let the name at offset `q` be zero or more well-formed labels `labels1` followed by
a 2-byte pointer (first byte `0b11000000` plus the high 6 bits of `p`, second byte the low
8 bits, `p` a 14-bit offset), and let offset `p`, earlier in the message, hold the
pointer-free name `labels2` (well-formed labels, at least one) with its zero terminator.
Then `decodeDNSName` started at `q` returns `labels1` followed by `labels2`, joined with
dots, and leaves the cursor at the byte just after the pointer; one loop pass per label and
one for the terminator suffice. -/
theorem decode_pointer (buf : List Nat) (q p : Nat) (labels1 labels2 : List (List Nat))
    (rest1 rest2 : List Nat)
    (hwf1 : ∀ l ∈ labels1, WellFormedLabel l) (hwf2 : ∀ l ∈ labels2, WellFormedLabel l)
    (hne : labels2 ≠ []) (hp : p < 16384)
    (hq : buf.drop q = wireLabels labels1 ++ (192 + p / 256) :: p % 256 :: rest1)
    (hpt : buf.drop p = wireLabels labels2 ++ 0 :: rest2)
    (_hearlier : p + (wireLabels labels2).length + 1 ≤ q)
    (fuel : Nat) (hfuel : labels1.length + labels2.length < fuel) :
    decodeDNSName fuel ⟨buf, q⟩ =
      some (.ok (Join (labels1 ++ labels2)), ⟨buf, q + (wireLabels labels1).length + 2⟩) := by
  obtain ⟨l, ls, rfl⟩ := List.exists_cons_of_ne_nil hne
  have hl : WellFormedLabel l := hwf2 l (List.mem_cons_self _ _)
  have hmod : l.length % 256 = l.length := Nat.mod_eq_of_lt (by have := hl.2; omega)
  rw [List.length_cons] at hfuel
  obtain ⟨d, rfl⟩ : ∃ d, fuel = d + 1 + ls.length + 1 + labels1.length :=
    ⟨fuel - 1 - ls.length - 1 - labels1.length, by omega⟩
  have ha : buf.drop (q + (wireLabels labels1).length) = (192 + p / 256) :: p % 256 :: rest1 :=
    drop_add_of_drop hq
  have hb : buf.drop p = l.length :: (l ++ (wireLabels ls ++ 0 :: rest2)) := by
    rw [hpt]; simp [wireLabels, hmod]
  have hc : buf.drop (p + 1 + l.length) = wireLabels ls ++ 0 :: rest2 := by
    have := @drop_add_of_drop buf p (l.length :: l) (wireLabels ls ++ 0 :: rest2)
      (by rw [hb]; rfl)
    rw [List.length_cons] at this
    rw [← this]; congr 1; omega
  have hd : buf.drop (p + 1 + l.length + (wireLabels ls).length) = 0 :: rest2 :=
    drop_add_of_drop hc
  unfold decodeDNSName
  rw [loop_labels labels1 hwf1 q 0 [] _ _ hq,
    loop_succ_again _ (body_pointer 0 _ hp ha hb),
    loop_labels ls (fun m hm => hwf2 m (List.mem_cons_of_mem _ hm)) _ _ _ _ _ hc,
    loop_succ_ret d (body_zero _ _ hd)]
  simp

theorem decode_pointer_witness :
    decodeDNSName 3 ⟨[3, 99, 111, 109, 0, 1, 97, 192, 0, 7], 5⟩ =
      some (.ok (Join ([[97]] ++ [[99, 111, 109]])),
        ⟨[3, 99, 111, 109, 0, 1, 97, 192, 0, 7], 5 + (wireLabels [[97]]).length + 2⟩) :=
  decode_pointer [3, 99, 111, 109, 0, 1, 97, 192, 0, 7] 5 0 [[97]] [[99, 111, 109]] [7]
    [1, 97, 192, 0, 7] (by decide) (by decide) (by decide) (by decide) (by decide)
    (by decide) (by decide) 3 (by decide)

/-! ## Lemmas: what a pass of the decode loop can do -/

theorem ReadByte_s (r : Reader) : r.ReadByte.2.2.s = r.s := by
  unfold Reader.ReadByte; split <;> rfl

theorem Read_s (r : Reader) (n : Nat) : (r.Read n).2.s = r.s := by
  unfold Reader.Read; split <;> rfl

/-- The loop body written with projections instead of pattern matching. -/
theorem body_eq (st : DecodeState) : decodeDNSNameBody st =
    if st.name.ReadByte.2.1 then .ret (.error "Invalid name") st.name.ReadByte.2.2
    else if st.name.ReadByte.1 = 0 then
      .ret (.ok (Join st.labels))
        (if st.readerIndex ≠ 0 then st.name.ReadByte.2.2.SeekStart st.readerIndex
         else st.name.ReadByte.2.2)
    else
      .again ⟨((labelStart st).2.Read (labelStart st).1).2,
        if st.name.ReadByte.1 &&& 0b11000000 = 0b11000000 then
          (if st.readerIndex = 0 then st.name.ReadByte.2.2.ReadByte.2.2.SeekCurrent
           else st.readerIndex)
        else st.readerIndex,
        st.labels ++ [((labelStart st).2.Read (labelStart st).1).1]⟩ := by
  unfold decodeDNSNameBody labelStart
  split_ifs <;> simp_all

theorem labelStart_s (st : DecodeState) : (labelStart st).2.s = st.name.s := by
  unfold labelStart
  split <;> simp [ReadByte_s, Reader.SeekStart]

/-- A pass never changes the buffer under the reader. -/
theorem body_again_s {st st2 : DecodeState} (h : decodeDNSNameBody st = .again st2) :
    st2.name.s = st.name.s := by
  rw [body_eq] at h
  split_ifs at h <;>
  · simp only [DecodeStep.again.injEq] at h
    subst h
    simp [Read_s, labelStart_s]

/-- A pass returns in two ways only: with the error when the length byte could not be
read, or with the joined labels when the length byte read is zero. -/
theorem body_ret {st : DecodeState} {res : Except String (List Nat)} {r : Reader}
    (h : decodeDNSNameBody st = .ret res r) :
    (res = .error "Invalid name" ∧ st.name.s.length ≤ st.name.i) ∨
    (res = .ok (Join st.labels) ∧ st.name.i < st.name.s.length ∧
      st.name.s.getD st.name.i 0 = 0 ∧
      r = ⟨st.name.s, if st.readerIndex ≠ 0 then st.readerIndex else st.name.i + 1⟩) := by
  rw [body_eq] at h
  by_cases hc : st.name.i ≥ st.name.s.length
  · left
    simp [Reader.ReadByte, hc] at h
    exact ⟨h.1.symm, hc⟩
  · right
    simp only [Reader.ReadByte, if_neg hc, Bool.false_eq_true, if_false] at h
    split_ifs at h with h0 h1
    · simp only [DecodeStep.ret.injEq] at h
      refine ⟨h.1.symm, by omega, h0, ?_⟩
      rw [← h.2, if_pos h1]; rfl
    · simp only [DecodeStep.ret.injEq] at h
      refine ⟨h.1.symm, by omega, h0, ?_⟩
      rw [← h.2, if_neg h1]

/-- On a buffer without a zero byte the loop never returns a name. -/
theorem loop_no_zero (fuel : Nat) (st : DecodeState) (h : ∀ b ∈ st.name.s, b ≠ 0)
    (res : Except String (List Nat)) (r : Reader)
    (hres : decodeDNSNameLoop fuel st = some (res, r)) : res = .error "Invalid name" := by
  induction fuel generalizing st with
  | zero => simp [decodeDNSNameLoop] at hres
  | succ n ih =>
    rw [decodeDNSNameLoop] at hres
    cases hb : decodeDNSNameBody st with
    | ret res2 r2 =>
      rw [hb] at hres
      simp only [Option.some.injEq, Prod.mk.injEq] at hres
      rcases body_ret hb with ⟨he, _⟩ | ⟨_, hlt, hz, _⟩
      · rw [← hres.1, he]
      · exfalso
        have hmem : st.name.s.getD st.name.i 0 ∈ st.name.s := by
          rw [List.getD_eq_getElem _ _ hlt]; exact List.getElem_mem _
        exact h _ hmem hz
    | again st2 =>
      rw [hb] at hres
      exact ih st2 (by rw [body_again_s hb]; exact h) hres

/-! ## Lemmas: fixed-size reads -/

theorem window_getElem? (buf : List Nat) (o n k : Nat) :
    (window buf o n)[k]? = if k < n then some (buf.getD (o + k) 0) else none := by
  unfold window
  by_cases hk : k < n
  · simp [hk, List.getElem?_range hk]
  · rw [if_neg hk, List.getElem?_eq_none]; simp; omega

theorem window_length (buf : List Nat) (o n : Nat) : (window buf o n).length = n := by
  simp [window]

theorem window_getD (buf : List Nat) (o n k : Nat) (hk : k < n) :
    (window buf o n).getD k 0 = buf.getD (o + k) 0 := by
  rw [List.getD_eq_getElem?_getD, window_getElem?, if_pos hk]; rfl

theorem Uint16_window (buf : List Nat) (o : Nat) : Uint16 (window buf o 2) = be16 buf o := by
  unfold Uint16 be16
  rw [window_getD _ _ _ 0 (by omega), window_getD _ _ _ 1 (by omega)]; rfl

theorem Uint32_window (buf : List Nat) (o : Nat) : Uint32 (window buf o 4) = be32 buf o := by
  unfold Uint32 be32
  rw [window_getD _ _ _ 0 (by omega), window_getD _ _ _ 1 (by omega),
    window_getD _ _ _ 2 (by omega), window_getD _ _ _ 3 (by omega)]; rfl

/-- A read of `n` bytes gives the `n` bytes at the reader's offset, zero beyond the end of
the buffer, and advances the offset by `n` (or stays at the end). -/
theorem Read_window {buf : List Nat} {r : Reader} {o : Nat} (h : AtOffset buf r o) (n : Nat) :
    (r.Read n).1 = window buf o n ∧ AtOffset buf (r.Read n).2 (o + n) := by
  obtain ⟨s, i⟩ := r
  obtain ⟨hs, hi⟩ := h
  simp only at hs hi
  subst hs
  unfold Reader.Read
  by_cases hc : i ≥ s.length
  · simp only [if_pos hc]
    have ho : s.length ≤ o := by rcases hi with h1 | h1 <;> omega
    refine ⟨?_, rfl, Or.inr ⟨hc, by omega⟩⟩
    apply List.ext_getElem?
    intro k
    rw [window_getElem?, List.getElem?_replicate]
    by_cases hk : k < n
    · simp only [hk, if_true]
      rw [List.getD_eq_getElem?_getD, List.getElem?_eq_none (show s.length ≤ o + k by omega)]
      rfl
    · simp only [hk, if_false]
  · simp only [if_neg hc]
    have ho : i = o := by rcases hi with h1 | h1 <;> omega
    subst ho
    refine ⟨?_, rfl, ?_⟩
    · apply List.ext_getElem?
      intro k
      rw [window_getElem?]
      have hlen : ((s.drop i).take (min n (s.length - i))).length = min n (s.length - i) := by
        simp
      by_cases hk : k < n
      · rw [if_pos hk, List.getD_eq_getElem?_getD]
        by_cases hk2 : k < s.length - i
        · rw [List.getElem?_append_left (by rw [hlen]; omega),
            List.getElem?_take_of_lt (by omega), List.getElem?_drop,
            List.getElem?_eq_getElem (show i + k < s.length by omega)]
          rfl
        · rw [List.getElem?_append_right (by rw [hlen]; omega), hlen,
            List.getElem?_replicate, if_pos (by omega),
            List.getElem?_eq_none (show s.length ≤ i + k by omega)]
          rfl
      · rw [if_neg hk, List.getElem?_eq_none]
        simp; omega
    · simp only
      by_cases hn : n ≤ s.length - i
      · left; rw [Nat.min_eq_left hn]
      · right; omega

theorem AtOffset_self (r : Reader) : AtOffset r.s r r.i := ⟨rfl, Or.inl rfl⟩

/-- `parseDNSHeader` reads the six big-endian 16-bit values at the reader's offset. -/
theorem parseDNSHeader_window {buf : List Nat} {r : Reader} {o : Nat} (h : AtOffset buf r o) :
    (parseDNSHeader r).1 =
      { ID := be16 buf o, Flags := be16 buf (o + 2), QDCount := be16 buf (o + 4),
        ANCount := be16 buf (o + 6), NSCount := be16 buf (o + 8),
        ARCount := be16 buf (o + 10) } ∧
    AtOffset buf (parseDNSHeader r).2 (o + 12) := by
  unfold parseDNSHeader
  rcases e1 : r.Read 2 with ⟨b1, r1⟩
  have h1 := Read_window h 2
  rw [e1] at h1
  dsimp only at h1 ⊢
  rcases e2 : r1.Read 2 with ⟨b2, r2⟩
  have h2 := Read_window h1.2 2
  rw [e2] at h2
  dsimp only at h2 ⊢
  rcases e3 : r2.Read 2 with ⟨b3, r3⟩
  have h3 := Read_window h2.2 2
  rw [e3] at h3
  dsimp only at h3 ⊢
  rcases e4 : r3.Read 2 with ⟨b4, r4⟩
  have h4 := Read_window h3.2 2
  rw [e4] at h4
  dsimp only at h4 ⊢
  rcases e5 : r4.Read 2 with ⟨b5, r5⟩
  have h5 := Read_window h4.2 2
  rw [e5] at h5
  dsimp only at h5 ⊢
  rcases e6 : r5.Read 2 with ⟨b6, r6⟩
  have h6 := Read_window h5.2 2
  rw [e6] at h6
  dsimp only at h6 ⊢
  simp only [Nat.add_assoc, Nat.reduceAdd] at h1 h2 h3 h4 h5 h6
  rw [h1.1, h2.1, h3.1, h4.1, h5.1, h6.1]
  simp only [Uint16_window]
  exact ⟨trivial, h6.2⟩

/-! ## Lemmas: the decoder keeps the buffer -/

theorem body_ret_s {st : DecodeState} {res : Except String (List Nat)} {r : Reader}
    (h : decodeDNSNameBody st = .ret res r) : r.s = st.name.s := by
  rw [body_eq] at h
  split_ifs at h <;>
  · simp only [DecodeStep.ret.injEq] at h
    rw [← h.2]
    simp [ReadByte_s, Reader.SeekStart]

theorem loop_s (fuel : Nat) (st : DecodeState) (res : Except String (List Nat)) (r : Reader)
    (hres : decodeDNSNameLoop fuel st = some (res, r)) : r.s = st.name.s := by
  induction fuel generalizing st with
  | zero => simp [decodeDNSNameLoop] at hres
  | succ n ih =>
    rw [decodeDNSNameLoop] at hres
    cases hb : decodeDNSNameBody st with
    | ret res2 r2 =>
      rw [hb] at hres
      simp only [Option.some.injEq, Prod.mk.injEq] at hres
      rw [← hres.2]; exact body_ret_s hb
    | again st2 =>
      rw [hb] at hres
      rw [ih st2 hres, body_again_s hb]

theorem decodeDNSName_s {fuel : Nat} {name : Reader} {res : Except String (List Nat)}
    {r : Reader} (h : decodeDNSName fuel name = some (res, r)) : r.s = name.s :=
  loop_s fuel _ res r h

/-! ## C3 -/

/-- C3 (the code departs from it): in the buffer `[1, 'a', 0, 0xC0]` read from offset 3 the
read of the second byte of the pointer hits the end of the buffer; the error of that read
is dropped, the missing byte counts as 0, the pointer is followed to offset 0 and the
name `"a"` is returned, with the cursor at offset 4. -/
theorem decode_truncated_pointer :
    decodeDNSName 2 ⟨[1, 97, 0, 192], 3⟩ = some (.ok [97], ⟨[1, 97, 0, 192], 4⟩) ∧
    (Reader.ReadByte ⟨[1, 97, 0, 192], 4⟩).2.1 = true := by
  constructor <;> rfl

/-! ## C4 -/

/-- C4: on a buffer that contains no zero byte, from every start offset, `decodeDNSName`
never returns a name: whenever it returns (whatever the number of loop passes), what it
returns is the error. -/
theorem decode_no_terminator (buf : List Nat) (hnz : ∀ b ∈ buf, b ≠ 0) (start fuel : Nat)
    (res : Except String (List Nat)) (r : Reader)
    (hres : decodeDNSName fuel ⟨buf, start⟩ = some (res, r)) :
    res = .error "Invalid name" :=
  loop_no_zero fuel _ hnz res r hres

theorem decode_no_terminator_witness :
    (∀ b ∈ [3, 119, 119, 119, 3, 99, 111, 109], b ≠ 0) ∧
    decodeDNSName 3 ⟨[3, 119, 119, 119, 3, 99, 111, 109], 0⟩ =
      some (.error "Invalid name", ⟨[3, 119, 119, 119, 3, 99, 111, 109], 8⟩) ∧
    (Except.error "Invalid name" : Except String (List Nat)) = .error "Invalid name" :=
  ⟨by decide, rfl,
    decode_no_terminator [3, 119, 119, 119, 3, 99, 111, 109] (by decide) 0 3 _ _ rfl⟩

/-! ## C9 -/

theorem parseQuestions_length (fuel n : Nat) (packet : Reader) (acc qs : List DNSQuestion)
    (r : Reader) (h : parseQuestions fuel n packet acc = some (.ok (qs, r))) :
    qs.length = acc.length + n := by
  induction n generalizing packet acc with
  | zero =>
    simp only [parseQuestions, Option.some.injEq, Except.ok.injEq, Prod.mk.injEq] at h
    rw [← h.1]; rfl
  | succ n ih =>
    rw [parseQuestions] at h
    cases hq : parseDNSQuestion fuel packet with
    | none => rw [hq] at h; cases h
    | some x =>
      cases x with
      | error e => rw [hq] at h; simp at h
      | ok p =>
        obtain ⟨q, r2⟩ := p
        rw [hq] at h
        have := ih r2 (acc ++ [q]) h
        rw [this, List.length_append, List.length_singleton]; omega

theorem parseRecords_length (fuel n : Nat) (packet : Reader) (acc rs : List DNSRecord)
    (r : Reader) (h : parseRecords fuel n packet acc = some (.ok (rs, r))) :
    rs.length = acc.length + n := by
  induction n generalizing packet acc with
  | zero =>
    simp only [parseRecords, Option.some.injEq, Except.ok.injEq, Prod.mk.injEq] at h
    rw [← h.1]; rfl
  | succ n ih =>
    rw [parseRecords] at h
    cases hq : parseDNSRecord fuel packet with
    | none => rw [hq] at h; cases h
    | some x =>
      cases x with
      | error e => rw [hq] at h; simp at h
      | ok p =>
        obtain ⟨q, r2⟩ := p
        rw [hq] at h
        have := ih r2 (acc ++ [q]) h
        rw [this, List.length_append, List.length_singleton]; omega

/-- C9: whenever `parseDNSPacket` on a fresh reader over a buffer returns a packet, the
packet's header holds the big-endian 16-bit values of the first 12 bytes of the buffer (a
byte beyond the end of a shorter buffer reads as zero), and the four sections have exactly
the lengths the header counts give. -/
theorem parseDNSPacket_counts (buf : List Nat) (fuel : Nat) (pkt : DNSPacket) (r : Reader)
    (h : parseDNSPacket fuel (NewReader buf) = some (.ok (pkt, r))) :
    pkt.Header =
      { ID := be16 buf 0, Flags := be16 buf 2, QDCount := be16 buf 4, ANCount := be16 buf 6,
        NSCount := be16 buf 8, ARCount := be16 buf 10 } ∧
    pkt.Questions.length = pkt.Header.QDCount ∧
    pkt.Answers.length = pkt.Header.ANCount ∧
    pkt.Authorities.length = pkt.Header.NSCount ∧
    pkt.Additionals.length = pkt.Header.ARCount := by
  have hh := (@parseDNSHeader_window buf (NewReader buf) 0 ⟨rfl, Or.inl rfl⟩).1
  simp only [Nat.zero_add] at hh
  unfold parseDNSPacket at h
  rcases eh : parseDNSHeader (NewReader buf) with ⟨header, r0⟩
  rw [eh] at h hh
  dsimp only at h hh
  cases h1 : parseQuestions fuel header.QDCount r0 [] with
  | none => rw [h1] at h; cases h
  | some x1 =>
    rcases x1 with e | ⟨qs, r1⟩
    · rw [h1] at h; simp at h
    rw [h1] at h
    dsimp only at h
    cases h2 : parseRecords fuel header.ANCount r1 [] with
    | none => rw [h2] at h; cases h
    | some x2 =>
      rcases x2 with e | ⟨an, r2⟩
      · rw [h2] at h; simp at h
      rw [h2] at h
      dsimp only at h
      cases h3 : parseRecords fuel header.NSCount r2 [] with
      | none => rw [h3] at h; cases h
      | some x3 =>
        rcases x3 with e | ⟨ns, r3⟩
        · rw [h3] at h; simp at h
        rw [h3] at h
        dsimp only at h
        cases h4 : parseRecords fuel header.ARCount r3 [] with
        | none => rw [h4] at h; cases h
        | some x4 =>
          rcases x4 with e | ⟨ar, r4⟩
          · rw [h4] at h; simp at h
          rw [h4] at h
          simp only [Option.some.injEq, Except.ok.injEq, Prod.mk.injEq] at h
          obtain ⟨rfl, -⟩ := h
          refine ⟨hh, ?_, ?_, ?_, ?_⟩
          · simpa using parseQuestions_length _ _ _ _ _ _ h1
          · simpa using parseRecords_length _ _ _ _ _ _ h2
          · simpa using parseRecords_length _ _ _ _ _ _ h3
          · simpa using parseRecords_length _ _ _ _ _ _ h4

theorem parseDNSPacket_counts_witness :
    parseDNSPacket 3 (NewReader exampleResponse) =
      some (.ok (examplePacket, ⟨exampleResponse, 35⟩)) ∧
    examplePacket.Questions.length = examplePacket.Header.QDCount ∧
    examplePacket.Answers.length = examplePacket.Header.ANCount ∧
    examplePacket.Authorities.length = examplePacket.Header.NSCount ∧
    examplePacket.Additionals.length = examplePacket.Header.ARCount :=
  ⟨rfl, (parseDNSPacket_counts exampleResponse 3 examplePacket ⟨exampleResponse, 35⟩ rfl).2⟩

/-! ## C10 -/

/-- C10: when the owner name decodes at the cursor, leaving the cursor at `r1.i`, and the
record type read there is not `NS`, `parseDNSRecord` returns a record with that name, with
Type, Class and TTL the big-endian values of the 8 bytes after the name, and with a payload
as long as the declared 16-bit data length, whose `k`-th byte is the buffer byte at payload
start plus `k` when that offset is inside the buffer and 0 otherwise; this holds whatever
the declared length, also when it exceeds the bytes that remain. -/
theorem parseDNSRecord_raw (buf : List Nat) (cur fuel : Nat) (name : List Nat) (r1 : Reader)
    (hname : decodeDNSName fuel ⟨buf, cur⟩ = some (.ok name, r1))
    (hty : be16 buf r1.i ≠ NS) :
    ∃ rec r2, parseDNSRecord fuel ⟨buf, cur⟩ = some (.ok (rec, r2)) ∧
      rec.Name = name ∧ rec.Typ = be16 buf r1.i ∧ rec.Class = be16 buf (r1.i + 2) ∧
      rec.TTL = be32 buf (r1.i + 4) ∧
      rec.data.length = be16 buf (r1.i + 8) ∧
      ∀ k, k < be16 buf (r1.i + 8) →
        rec.data.getD k 0 =
          if r1.i + 10 + k < buf.length then buf.getD (r1.i + 10 + k) 0 else 0 := by
  have hs : r1.s = buf := decodeDNSName_s hname
  have h0 : AtOffset buf r1 r1.i := ⟨hs, Or.inl rfl⟩
  unfold parseDNSRecord
  rw [hname]
  dsimp only
  rcases e1 : r1.Read 2 with ⟨b1, r2⟩
  have h1 := Read_window h0 2
  rw [e1] at h1
  dsimp only at h1 ⊢
  rcases e2 : r2.Read 2 with ⟨b2, r3⟩
  have h2 := Read_window h1.2 2
  rw [e2] at h2
  dsimp only at h2 ⊢
  rcases e3 : r3.Read 4 with ⟨b3, r4⟩
  have h3 := Read_window h2.2 4
  rw [e3] at h3
  dsimp only at h3 ⊢
  rcases e4 : r4.Read 2 with ⟨b4, r5⟩
  have h4 := Read_window h3.2 2
  rw [e4] at h4
  dsimp only at h4 ⊢
  simp only [Nat.add_assoc, Nat.reduceAdd] at h1 h2 h3 h4
  rw [h1.1, h2.1, h3.1, h4.1]
  simp only [Uint16_window, Uint32_window]
  rw [if_neg hty]
  have h5 := Read_window h4.2 (be16 buf (r1.i + 8))
  have hd : ∀ k, k < be16 buf (r1.i + 8) →
      (window buf (r1.i + 10) (be16 buf (r1.i + 8))).getD k 0 =
        if r1.i + 10 + k < buf.length then buf.getD (r1.i + 10 + k) 0 else 0 := by
    intro k hk
    rw [window_getD _ _ _ _ hk]
    split
    · rfl
    · rw [List.getD_eq_getElem?_getD, List.getElem?_eq_none (by omega)]; rfl
  split_ifs <;>
  · refine ⟨_, _, rfl, rfl, rfl, rfl, rfl, ?_, ?_⟩
    · simp only [h5.1, window_length]
    · simp only [h5.1]; exact hd

theorem parseDNSRecord_raw_witness :
    decodeDNSName 2 ⟨[1, 97, 0, 0, 16, 0, 1, 0, 0, 0, 60, 0, 5, 7, 8], 0⟩ =
      some (.ok [97], ⟨[1, 97, 0, 0, 16, 0, 1, 0, 0, 0, 60, 0, 5, 7, 8], 3⟩) ∧
    ∃ rec r2, parseDNSRecord 2 ⟨[1, 97, 0, 0, 16, 0, 1, 0, 0, 0, 60, 0, 5, 7, 8], 0⟩ =
        some (.ok (rec, r2)) ∧ rec.Typ = 16 ∧ rec.data.length = 5 :=
  ⟨rfl,
    let ⟨rec, r2, h, _, ht, _, _, hl, _⟩ :=
      parseDNSRecord_raw [1, 97, 0, 0, 16, 0, 1, 0, 0, 0, 60, 0, 5, 7, 8] 0 2 [97]
        ⟨[1, 97, 0, 0, 16, 0, 1, 0, 0, 0, 60, 0, 5, 7, 8], 3⟩ rfl (by decide)
    ⟨rec, r2, h, ht, hl⟩⟩

/-! ## Lemmas: decoding a well-formed name -/

/-- Well-formed labels and a zero terminator at offset `q` decode to the joined labels,
with the cursor after the terminator. -/
theorem decode_plain (buf : List Nat) (q : Nat) (labels : List (List Nat)) (rest : List Nat)
    (hwf : ∀ l ∈ labels, WellFormedLabel l)
    (hq : buf.drop q = wireLabels labels ++ 0 :: rest)
    (fuel : Nat) (hfuel : labels.length < fuel) :
    decodeDNSName fuel ⟨buf, q⟩ =
      some (.ok (Join labels), ⟨buf, q + ((wireLabels labels).length + 1)⟩) := by
  obtain ⟨d, rfl⟩ : ∃ d, fuel = d + 1 + labels.length := ⟨fuel - 1 - labels.length, by omega⟩
  have h1 : buf.drop (q + (wireLabels labels).length) = 0 :: rest := drop_add_of_drop hq
  unfold decodeDNSName
  rw [loop_labels labels hwf q 0 [] _ (d + 1) hq, loop_succ_ret d (body_zero 0 _ h1)]
  simp [Nat.add_assoc]

/-- Well-formed labels and a pointer at offset `q`, the pointer to a plain name of at least
one label, decode to all the labels joined, with the cursor after the pointer. -/
theorem decode_through_pointer (buf : List Nat) (q p : Nat) (labels1 labels2 : List (List Nat))
    (rest1 rest2 : List Nat)
    (hwf1 : ∀ l ∈ labels1, WellFormedLabel l) (hwf2 : ∀ l ∈ labels2, WellFormedLabel l)
    (hne : labels2 ≠ []) (hp : p < 16384)
    (hq : buf.drop q = wireLabels labels1 ++ (192 + p / 256) :: p % 256 :: rest1)
    (hpt : buf.drop p = wireLabels labels2 ++ 0 :: rest2)
    (fuel : Nat) (hfuel : labels1.length + labels2.length < fuel) :
    decodeDNSName fuel ⟨buf, q⟩ =
      some (.ok (Join (labels1 ++ labels2)),
        ⟨buf, q + ((wireLabels labels1).length + 2)⟩) := by
  obtain ⟨l, ls, rfl⟩ := List.exists_cons_of_ne_nil hne
  have hl : WellFormedLabel l := hwf2 l (List.mem_cons_self _ _)
  have hmod : l.length % 256 = l.length := Nat.mod_eq_of_lt (by have := hl.2; omega)
  rw [List.length_cons] at hfuel
  obtain ⟨d, rfl⟩ : ∃ d, fuel = d + 1 + ls.length + 1 + labels1.length :=
    ⟨fuel - 1 - ls.length - 1 - labels1.length, by omega⟩
  have ha : buf.drop (q + (wireLabels labels1).length) = (192 + p / 256) :: p % 256 :: rest1 :=
    drop_add_of_drop hq
  have hb : buf.drop p = l.length :: (l ++ (wireLabels ls ++ 0 :: rest2)) := by
    rw [hpt]; simp [wireLabels, hmod]
  have hc : buf.drop (p + 1 + l.length) = wireLabels ls ++ 0 :: rest2 := by
    have := @drop_add_of_drop buf p (l.length :: l) (wireLabels ls ++ 0 :: rest2)
      (by rw [hb]; rfl)
    rw [List.length_cons] at this
    rw [← this]; congr 1; omega
  have hd : buf.drop (p + 1 + l.length + (wireLabels ls).length) = 0 :: rest2 :=
    drop_add_of_drop hc
  unfold decodeDNSName
  rw [loop_labels labels1 hwf1 q 0 [] _ _ hq,
    loop_succ_again _ (body_pointer 0 _ hp ha hb),
    loop_labels ls (fun m hm => hwf2 m (List.mem_cons_of_mem _ hm)) _ _ _ _ _ hc,
    loop_succ_ret d (body_zero _ _ hd)]
  simp [Nat.add_assoc]

/-- A well-formed name decodes to its joined labels, with the cursor after the bytes the
name occupies. -/
theorem decode_NameAt {buf : List Nat} {q : Nat} {labels : List (List Nat)} {occ : Nat}
    (h : NameAt buf q labels occ) (fuel : Nat) (hfuel : labels.length < fuel) :
    decodeDNSName fuel ⟨buf, q⟩ = some (.ok (Join labels), ⟨buf, q + occ⟩) := by
  obtain ⟨hwf, h | h⟩ := h
  · obtain ⟨rest, hq, rfl⟩ := h
    exact decode_plain buf q labels rest hwf hq fuel hfuel
  · obtain ⟨labels1, labels2, p, rest1, rest2, rfl, hne, hp, hq, hpt, -, rfl⟩ := h
    rw [List.length_append] at hfuel
    exact decode_through_pointer buf q p labels1 labels2 rest1 rest2
      (fun l hl => hwf l (List.mem_append_left _ hl))
      (fun l hl => hwf l (List.mem_append_right _ hl)) hne hp hq hpt fuel hfuel

theorem NameAt_lt_length {buf : List Nat} {q : Nat} {labels : List (List Nat)} {occ : Nat}
    (h : NameAt buf q labels occ) : q < buf.length := by
  by_contra hc
  have hnil : buf.drop q = [] := List.drop_eq_nil_of_le (by omega)
  obtain ⟨-, h | h⟩ := h
  · obtain ⟨rest, hq, -⟩ := h
    rw [hnil] at hq
    simp at hq
  · obtain ⟨labels1, labels2, p, rest1, rest2, -, -, -, hq, -⟩ := h
    rw [hnil] at hq
    simp at hq

/-! ## C11 -/

/-- C11 (the code departs from it): in `rootPointerRecord` the record at offset 1 has the
type `NS` and the payload `ns` followed by a pointer to offset 0, where the root name, a
plain name without labels, stands. The dotted name is `ns`; `decodeDNSName` takes the zero
byte at the pointer's target for the length of an empty label and reads on into the bytes
after it, and `parseDNSRecord` returns the payload `ns..a`. The cursor is left after the
pointer, at offset 19. -/
theorem parseDNSRecord_NS_pointer_to_root :
    decodeDNSName 1 ⟨rootPointerRecord, 0⟩ = some (.ok [], ⟨rootPointerRecord, 1⟩) ∧
    decodeDNSName 4 ⟨rootPointerRecord, 14⟩ =
      some (.ok (ascii "ns..a"), ⟨rootPointerRecord, 19⟩) ∧
    parseDNSRecord 4 ⟨rootPointerRecord, 1⟩ =
      some (.ok ({ Name := [97], Typ := NS, Class := 1, TTL := 60, data := ascii "ns..a" },
                 ⟨rootPointerRecord, 19⟩)) :=
  ⟨rfl, rfl, rfl⟩

/-- Where the payload of an `NS` record is a name of one of the two shapes of `NameAt`
(labels and a zero terminator, or labels and a pointer to an earlier plain name of at
least one label), the code does what C11 says: for a record whose owner name decodes
(leaving the cursor at `r1.i`) and whose type is `NS`, `parseDNSRecord` returns as
payload the decoded dotted name, the one `decodeDNSName` gives on the shared cursor at the
payload; the data-length field takes no part in the result; the cursor is left after the
bytes the payload name occupies, which is the first byte after the record when the name
occupies exactly the declared number of bytes. -/
theorem parseDNSRecord_NS (buf : List Nat) (cur fuel : Nat) (name : List Nat) (r1 : Reader)
    (labels : List (List Nat)) (occ : Nat)
    (hname : decodeDNSName fuel ⟨buf, cur⟩ = some (.ok name, r1))
    (hty : be16 buf r1.i = NS)
    (hpay : NameAt buf (r1.i + 10) labels occ) (hfuel : labels.length < fuel) :
    parseDNSRecord fuel ⟨buf, cur⟩ =
      some (.ok ({ Name := name, Typ := NS, Class := be16 buf (r1.i + 2),
                   TTL := be32 buf (r1.i + 4), data := Join labels },
                 ⟨buf, r1.i + 10 + occ⟩)) ∧
    decodeDNSName fuel ⟨buf, r1.i + 10⟩ =
      some (.ok (Join labels), ⟨buf, r1.i + 10 + occ⟩) ∧
    (be16 buf (r1.i + 8) = occ →
      ∃ rec, parseDNSRecord fuel ⟨buf, cur⟩ =
        some (.ok (rec, ⟨buf, r1.i + 10 + be16 buf (r1.i + 8)⟩))) := by
  have hdec := decode_NameAt hpay fuel hfuel
  have hlt := NameAt_lt_length hpay
  have hs : r1.s = buf := decodeDNSName_s hname
  have h0 : AtOffset buf r1 r1.i := ⟨hs, Or.inl rfl⟩
  have main : parseDNSRecord fuel ⟨buf, cur⟩ =
      some (.ok ({ Name := name, Typ := NS, Class := be16 buf (r1.i + 2),
                   TTL := be32 buf (r1.i + 4), data := Join labels },
                 ⟨buf, r1.i + 10 + occ⟩)) := by
    unfold parseDNSRecord
    rw [hname]
    dsimp only
    rcases e1 : r1.Read 2 with ⟨b1, r2⟩
    have h1 := Read_window h0 2
    rw [e1] at h1
    dsimp only at h1 ⊢
    rcases e2 : r2.Read 2 with ⟨b2, r3⟩
    have h2 := Read_window h1.2 2
    rw [e2] at h2
    dsimp only at h2 ⊢
    rcases e3 : r3.Read 4 with ⟨b3, r4⟩
    have h3 := Read_window h2.2 4
    rw [e3] at h3
    dsimp only at h3 ⊢
    rcases e4 : r4.Read 2 with ⟨b4, r5⟩
    have h4 := Read_window h3.2 2
    rw [e4] at h4
    dsimp only at h4 ⊢
    simp only [Nat.add_assoc, Nat.reduceAdd] at h1 h2 h3 h4
    rw [h1.1, h2.1, h3.1]
    simp only [Uint16_window, Uint32_window]
    rw [if_pos hty]
    have hr5 : r5 = ⟨buf, r1.i + 10⟩ := by
      obtain ⟨s5, i5⟩ := r5
      obtain ⟨-, hs5, hi5⟩ := h4
      simp only at hs5 hi5
      subst hs5
      rcases hi5 with h | h
      · rw [h]
      · omega
    rw [hr5, hdec, hty]
  refine ⟨main, hdec, fun hocc => ?_⟩
  rw [main, hocc]
  exact ⟨_, rfl⟩

theorem parseDNSRecord_NS_witness :
    parseDNSRecord 3 ⟨[1, 97, 0, 0, 2, 0, 1, 0, 0, 0, 60, 0, 5, 2, 110, 115, 192, 0], 0⟩ =
      some (.ok ({ Name := [97], Typ := NS,
                   Class := be16 [1, 97, 0, 0, 2, 0, 1, 0, 0, 0, 60, 0, 5, 2, 110, 115, 192, 0] 5,
                   TTL := be32 [1, 97, 0, 0, 2, 0, 1, 0, 0, 0, 60, 0, 5, 2, 110, 115, 192, 0] 7,
                   data := Join [[110, 115], [97]] },
                 ⟨[1, 97, 0, 0, 2, 0, 1, 0, 0, 0, 60, 0, 5, 2, 110, 115, 192, 0], 18⟩)) :=
  (parseDNSRecord_NS [1, 97, 0, 0, 2, 0, 1, 0, 0, 0, 60, 0, 5, 2, 110, 115, 192, 0] 0 3 [97]
    ⟨[1, 97, 0, 0, 2, 0, 1, 0, 0, 0, 60, 0, 5, 2, 110, 115, 192, 0], 3⟩
    [[110, 115], [97]] 5 rfl (by decide)
    ⟨by decide, Or.inr ⟨[[110, 115]], [[97]], 0, [],
      [0, 2, 0, 1, 0, 0, 0, 60, 0, 5, 2, 110, 115, 192, 0],
      rfl, by decide, by decide, rfl, rfl, by decide, rfl⟩⟩
    (by decide)).1

/-! ## C12 -/

/-- C12 (the code departs from it): in `truncatedNSResponse` the name inside the payload of
the `NS` answer, at offset 25, fails to decode; `parseDNSRecord` drops that error, so
`parseDNSPacket` does not fail: it returns a packet whose answer has the empty name as
payload. -/
theorem parseDNSPacket_NS_error_dropped :
    decodeDNSName 3 ⟨truncatedNSResponse, 25⟩ =
      some (.error "Invalid name", ⟨truncatedNSResponse, 27⟩) ∧
    parseDNSPacket 3 (NewReader truncatedNSResponse) =
      some (.ok ({ Header := ⟨0, 0, 0, 1, 0, 0⟩, Questions := [],
                   Answers := [{ Name := [97], Typ := NS, Class := 1, TTL := 60, data := [] }],
                   Authorities := [], Additionals := [] },
                 ⟨truncatedNSResponse, 27⟩)) :=
  ⟨rfl, rfl⟩

/-! ## C14 -/

/-- C14 (the code departs from it): with `referralTransport` the response for `a` has no
`A` answer, no `A` additional and one `NS` authority `ns`; the nested resolution of `ns`
from the root server returns the address 93.184.216.34; `Resolve` then sends no query to
that address: after the two queries it panics with "something went wrong". -/
theorem Resolve_referral_panics :
    Resolve referralTransport 3 1 (ascii "ns") A =
      (some (.ok (ascii "93.184.216.34")), [⟨ascii "ns", ascii "192.33.4.12:53", A⟩]) ∧
    ∀ k, Resolve referralTransport 3 (k + 2) (ascii "a") A =
      (some (.error "something went wrong"),
       [⟨ascii "a", ascii "192.33.4.12:53", A⟩, ⟨ascii "ns", ascii "192.33.4.12:53", A⟩]) :=
  ⟨rfl, fun _ => rfl⟩

/-! ## C15 -/

/-- C15 (the code departs from it): when `SendQuery` reports a failure, `LookupDomain`
returns the empty string with a `nil` error. -/
theorem LookupDomain_transport_failure (fuel : Nat) (domain : List Nat) (err : String) :
    LookupDomain (fun _ _ _ => .error err) fuel domain = some (.ok ([], none)) :=
  rfl

/-! ## C17 -/

/-- C17 (the code departs from it): on the label sequence without terminator of the test
`decodeDNSNameSimple` returns the error, but on `[3]` and on `[2, 'w']`, byte sequences
without a zero byte in which the label is cut short, it returns no error: it panics,
indexing or slicing `name` out of range. -/
theorem decodeDNSNameSimple_truncated_label :
    (∀ k, decodeDNSNameSimple (k + 7)
        [3, 119, 119, 119, 7, 101, 120, 97, 109, 112, 108, 101, 3, 99, 111, 109] =
      some (.ret [] (some "Invalid name"))) ∧
    (∀ k, decodeDNSNameSimple (k + 2) [3] = some (.panic "index out of range")) ∧
    (∀ k, decodeDNSNameSimple (k + 2) [2, 119] = some (.panic "slice bounds out of range")) :=
  ⟨fun _ => rfl, fun _ => rfl, fun _ => rfl⟩

/-! ## C19 -/

/-- C19 (the code departs from it): in `pointerToPointer`, read from offset 5, the first
pointer's target holds the second pointer (the case `k = 0`); the code takes the second
pointer's first byte, 192, as the length of a label, reads to the end of the message and
returns the error, where the chain leads to the name `b.a`. With one label before the
second pointer the chain is followed. -/
theorem decode_pointer_to_pointer :
    (∀ k, decodeDNSName (k + 3) ⟨pointerToPointer, 5⟩ =
      some (.error "Invalid name", ⟨pointerToPointer, 9⟩)) ∧
    decodeDNSNameBody ⟨⟨pointerToPointer, 7⟩, 0, [[98]]⟩ =
      .again ⟨⟨pointerToPointer, 9⟩, 9,
        [[98], [0, 1, 98, 192, 3] ++ List.replicate 187 0]⟩ ∧
    (∀ k, decodeDNSName (k + 4) ⟨[1, 97, 0, 1, 99, 192, 0, 1, 98, 192, 3], 7⟩ =
      some (.ok (ascii "b.c.a"), ⟨[1, 97, 0, 1, 99, 192, 0, 1, 98, 192, 3], 11⟩)) :=
  ⟨fun _ => rfl, rfl, fun _ => rfl⟩

/-! ## C16 -/

set_option maxRecDepth 100000 in
theorem FormatInt_byte : ∀ b, b < 256 → IsDecimalOf (FormatInt b) b := by decide

theorem Split_no_dot (l : List Nat) (h : dot ∉ l) : Split l = [l] := by
  induction l with
  | nil => rfl
  | cons c cs ih =>
    have hc : c ≠ dot := fun e => h (e ▸ List.mem_cons_self _ _)
    have hcs : dot ∉ cs := fun e => h (List.mem_cons_of_mem _ e)
    rw [Split, if_neg hc, ih hcs]

theorem Split_append_dot (l rest : List Nat) (h : dot ∉ l) :
    Split (l ++ dot :: rest) = l :: Split rest := by
  induction l with
  | nil => simp [Split]
  | cons c cs ih =>
    have hc : c ≠ dot := fun e => h (e ▸ List.mem_cons_self _ _)
    have hcs : dot ∉ cs := fun e => h (List.mem_cons_of_mem _ e)
    rw [List.cons_append, Split, if_neg hc, ih hcs]

/-- Splitting joined parts gives the parts back when no part holds a dot. -/
theorem Split_Join (parts : List (List Nat)) (hne : parts ≠ []) (h : ∀ l ∈ parts, dot ∉ l) :
    Split (Join parts) = parts := by
  induction parts with
  | nil => exact absurd rfl hne
  | cons l ls ih =>
    cases ls with
    | nil => exact Split_no_dot l (h l (List.mem_cons_self _ _))
    | cons m ms =>
      rw [Join_cons_cons, Split_append_dot _ _ (h l (List.mem_cons_self _ _)),
        ih (by simp) (fun x hx => h x (List.mem_cons_of_mem _ hx))]

theorem Join_ne_nil (l : List Nat) (ls : List (List Nat)) (hl : l ≠ []) :
    Join (l :: ls) ≠ [] := by
  cases ls with
  | nil => exact hl
  | cons m ms => rw [Join_cons_cons]; simp [hl]

theorem Join_head? (l : List Nat) (ls : List (List Nat)) (hl : l ≠ []) :
    (Join (l :: ls)).head? = l.head? := by
  cases ls with
  | nil => rfl
  | cons m ms => rw [Join_cons_cons, List.head?_append_of_ne_nil _ hl]

/-- The last byte of joined non-empty parts is a byte of one of the parts. -/
theorem Join_getLast? (parts : List (List Nat)) (h : ∀ l ∈ parts, l ≠ []) (c : Nat)
    (hc : (Join parts).getLast? = some c) : ∃ l ∈ parts, c ∈ l := by
  induction parts with
  | nil => simp [Join] at hc
  | cons l ls ih =>
    cases ls with
    | nil =>
      exact ⟨l, List.mem_cons_self _ _, List.mem_of_getLast?_eq_some hc⟩
    | cons m ms =>
      have hm : Join (m :: ms) ≠ [] :=
        Join_ne_nil m ms (h m (List.mem_cons_of_mem _ (List.mem_cons_self _ _)))
      rw [Join_cons_cons, List.getLast?_append_of_ne_nil _ (by simp)] at hc
      obtain ⟨y, ys, hy⟩ := List.exists_cons_of_ne_nil hm
      rw [hy, List.getLast?_cons_cons, ← hy] at hc
      obtain ⟨x, hx, hcx⟩ := ih (fun x hx => h x (List.mem_cons_of_mem _ hx)) hc
      exact ⟨x, List.mem_cons_of_mem _ hx, hcx⟩

theorem dataIPtoString_foldl (dataIP : List Nat) (acc : List (List Nat)) :
    dataIP.foldl (fun dataParts val => dataParts ++ [FormatInt val]) acc =
      acc ++ dataIP.map FormatInt := by
  induction dataIP generalizing acc with
  | nil => simp
  | cons v vs ih => rw [List.foldl_cons, ih]; simp

theorem dataIPtoString_eq (dataIP : List Nat) :
    dataIPtoString dataIP = Join (dataIP.map FormatInt) := by
  show Join _ = _
  rw [dataIPtoString_foldl]; rfl

/-- C16: for every byte sequence `dataIPtoString` returns the decimal representations of
the bytes in order (one to three digits, no leading zero, the value of the byte), joined by
dots; the result neither starts nor ends with a dot and is the empty string for the empty
input; for a non-empty input (a 4-byte payload in particular) splitting the result on the
dot gives the representations back and parsing them gives the bytes back;
`[93, 184, 216, 34]` gives `93.184.216.34`. -/
theorem dataIPtoString_spec (dataIP : List Nat) (hbytes : ∀ b ∈ dataIP, b < 256) :
    dataIPtoString dataIP = Join (dataIP.map FormatInt) ∧
    (∀ b ∈ dataIP, IsDecimalOf (FormatInt b) b) ∧
    (dataIPtoString dataIP).head? ≠ some dot ∧
    (dataIPtoString dataIP).getLast? ≠ some dot ∧
    (dataIP = [] → dataIPtoString dataIP = []) ∧
    (dataIP ≠ [] →
      Split (dataIPtoString dataIP) = dataIP.map FormatInt ∧
      (Split (dataIPtoString dataIP)).map parseDecimal = dataIP) ∧
    dataIPtoString [93, 184, 216, 34] = ascii "93.184.216.34" := by
  have hdec : ∀ b ∈ dataIP, IsDecimalOf (FormatInt b) b := fun b hb =>
    FormatInt_byte b (hbytes b hb)
  have hdigit : ∀ l ∈ dataIP.map FormatInt, ∀ c ∈ l, 48 ≤ c ∧ c ≤ 57 := by
    intro l hl
    obtain ⟨b, hb, rfl⟩ := List.mem_map.mp hl
    exact (hdec b hb).2.2.1
  have hnodot : ∀ l ∈ dataIP.map FormatInt, dot ∉ l := by
    intro l hl hd
    have := hdigit l hl dot hd
    simp [dot] at this
  have hnonempty : ∀ l ∈ dataIP.map FormatInt, l ≠ [] := by
    intro l hl
    obtain ⟨b, hb, rfl⟩ := List.mem_map.mp hl
    exact (hdec b hb).1
  rw [dataIPtoString_eq]
  refine ⟨rfl, hdec, ?_, ?_, ?_, ?_, rfl⟩
  · cases hd : dataIP with
    | nil => simp [Join]
    | cons b bs =>
      rw [hd] at hnonempty hdigit
      rw [List.map_cons, Join_head? _ _ (hnonempty _ (List.mem_cons_self _ _))]
      intro hh
      have := hdigit _ (List.mem_cons_self _ _) dot (List.mem_of_mem_head? hh)
      simp [dot] at this
  · intro hl
    obtain ⟨l, hl1, hl2⟩ := Join_getLast? _ hnonempty dot hl
    exact hnodot l hl1 hl2
  · intro h; rw [h]; rfl
  · intro hne
    have hs : Split (Join (dataIP.map FormatInt)) = dataIP.map FormatInt :=
      Split_Join _ (by simpa using hne) hnodot
    refine ⟨hs, ?_⟩
    rw [hs, List.map_map]
    conv_rhs => rw [← List.map_id dataIP]
    apply List.map_congr_left
    intro b hb
    exact (hdec b hb).2.2.2.2

theorem dataIPtoString_spec_witness :
    (∀ b ∈ [10, 0, 0, 255], b < 256) ∧
    dataIPtoString [10, 0, 0, 255] = Join ([10, 0, 0, 255].map FormatInt) ∧
    (Split (dataIPtoString [10, 0, 0, 255])).map parseDecimal = [10, 0, 0, 255] :=
  ⟨by decide, (dataIPtoString_spec [10, 0, 0, 255] (by decide)).1,
    ((dataIPtoString_spec [10, 0, 0, 255] (by decide)).2.2.2.2.2.1 (by decide)).2⟩

/-! ## Lemmas: the loops of `Resolve` -/

theorem answersLoop_first (pre post : List DNSRecord) (a : DNSRecord)
    (hpre : ∀ x ∈ pre, x.Typ ≠ A) (ha : a.Typ = A) :
    answersLoop (pre ++ a :: post) = some (dataIPtoString a.data) := by
  induction pre with
  | nil => simp [answersLoop, ha]
  | cons x xs ih =>
    rw [List.cons_append, answersLoop, if_neg (hpre x (List.mem_cons_self _ _)),
      ih (fun y hy => hpre y (List.mem_cons_of_mem _ hy))]

theorem answersLoop_none (l : List DNSRecord) (h : ∀ x ∈ l, x.Typ ≠ A) :
    answersLoop l = none := by
  induction l with
  | nil => rfl
  | cons x xs ih =>
    rw [answersLoop, if_neg (h x (List.mem_cons_self _ _)),
      ih (fun y hy => h y (List.mem_cons_of_mem _ hy))]

theorem formatBits_ne_nil (fuel u : Nat) (acc : List Nat) (h : acc ≠ []) :
    formatBits fuel u acc ≠ [] := by
  induction fuel generalizing u acc with
  | zero => exact h
  | succ n ih =>
    rw [formatBits]
    split
    · simp
    · exact ih _ _ (by simp)

theorem FormatInt_ne_nil (v : Nat) : FormatInt v ≠ [] := by
  unfold FormatInt
  rw [formatBits]
  split
  · simp
  · exact formatBits_ne_nil _ _ _ (by simp)

theorem dataIPtoString_ne_nil (dataIP : List Nat) (h : dataIP ≠ []) :
    dataIPtoString dataIP ≠ [] := by
  obtain ⟨b, bs, rfl⟩ := List.exists_cons_of_ne_nil h
  rw [dataIPtoString_eq, List.map_cons]
  exact Join_ne_nil _ _ (FormatInt_ne_nil b)

theorem additionalsLoop_first (pre post : List DNSRecord) (a : DNSRecord)
    (newNameserver : List Nat)
    (hpre : ∀ x ∈ pre, x.Typ = A → x.data = []) (ha : a.Typ = A) (hdata : a.data ≠ []) :
    additionalsLoop (pre ++ a :: post) newNameserver = dataIPtoString a.data := by
  induction pre generalizing newNameserver with
  | nil =>
    have hlen : (dataIPtoString a.data).length > 0 :=
      List.length_pos.mpr (dataIPtoString_ne_nil _ hdata)
    simp only [List.nil_append, additionalsLoop, if_pos ha, if_pos hlen]
  | cons x xs ih =>
    rw [List.cons_append, additionalsLoop]
    by_cases hx : x.Typ = A
    · have hd : x.data = [] := hpre x (List.mem_cons_self _ _) hx
      have h0 : ¬ (dataIPtoString x.data).length > 0 := by rw [hd]; decide
      simp only [if_pos hx, if_neg h0]
      exact ih _ (fun y hy => hpre y (List.mem_cons_of_mem _ hy))
    · simp only [if_neg hx]
      exact ih _ (fun y hy => hpre y (List.mem_cons_of_mem _ hy))

/-- The first query of a run of the loop goes to the current nameserver, port 53. -/
theorem ResolveLoop_first_query (SendQuery : Transport) (dfuel fuel : Nat)
    (domain : List Nat) (recordType : Nat) (nameserver : List Nat) :
    ∃ rest, (ResolveLoop SendQuery dfuel (fuel + 1) domain recordType nameserver).2 =
      ⟨domain, nameserver ++ ascii ":53", recordType⟩ :: rest := by
  rw [ResolveLoop]
  dsimp only
  split
  · exact ⟨_, rfl⟩
  · exact ⟨_, rfl⟩
  · split
    · exact ⟨_, rfl⟩
    · split
      · exact ⟨_, rfl⟩
      · split
        · split <;> exact ⟨_, rfl⟩
        · exact ⟨_, rfl⟩

/-! ## C13 -/

/-- C13, as amended: when `parseDNSPacket` parses the response of the current nameserver
as a whole, all four sections, into a packet, and the packet has an `A`-type answer, the
loop of `Resolve` returns the dotted-decimal string of the payload of the first such
answer, with no error, after that one query, whatever additional and authority records
the packet holds. A transport that gives `exampleResponse`, whose single `A` answer has
the payload `[93, 184, 216, 34]`, yields `93.184.216.34`. -/
theorem Resolve_answer (SendQuery : Transport) (dfuel fuel : Nat) (domain : List Nat)
    (recordType : Nat) (nameserver resp : List Nat) (pkt : DNSPacket) (r : Reader)
    (pre post : List DNSRecord) (a : DNSRecord)
    (hresp : SendQuery domain (nameserver ++ ascii ":53") recordType = .ok resp)
    (hparse : parseDNSPacket dfuel (NewReader resp) = some (.ok (pkt, r)))
    (hans : pkt.Answers = pre ++ a :: post) (hpre : ∀ x ∈ pre, x.Typ ≠ A) (ha : a.Typ = A) :
    ResolveLoop SendQuery dfuel (fuel + 1) domain recordType nameserver =
      (some (.ok (dataIPtoString a.data)),
       [⟨domain, nameserver ++ ascii ":53", recordType⟩]) ∧
    Resolve (fun _ _ _ => .ok exampleResponse) 3 1 (ascii "example.com") A =
      (some (.ok (ascii "93.184.216.34")),
       [⟨ascii "example.com", ascii "192.33.4.12:53", A⟩]) := by
  refine ⟨?_, rfl⟩
  rw [ResolveLoop]
  simp only [hresp, hparse, hans, answersLoop_first pre post a hpre ha]

theorem Resolve_answer_witness :
    parseDNSPacket 3 (NewReader fullResponse) = some (.ok (fullPacket, ⟨fullResponse, 69⟩)) ∧
    ResolveLoop (fun _ _ _ => .ok fullResponse) 3 1 (ascii "a") A (ascii "192.33.4.12") =
      (some (.ok (dataIPtoString [93, 184, 216, 34])),
       [⟨ascii "a", ascii "192.33.4.12" ++ ascii ":53", A⟩]) :=
  ⟨rfl,
    (Resolve_answer (fun _ _ _ => .ok fullResponse) 3 0 (ascii "a") A
      (ascii "192.33.4.12") fullResponse fullPacket ⟨fullResponse, 69⟩ [] []
      { Name := [97], Typ := 1, Class := 1, TTL := 60, data := [93, 184, 216, 34] }
      rfl rfl rfl (fun x hx => absurd hx (List.not_mem_nil x)) rfl).1⟩

set_option maxRecDepth 1000000 in
/-- C13 as stated fails: `answerBadAdditionalResponse`, 1024 bytes, has in its answer
section the `A`-type record with payload `[93, 184, 216, 34]`, and one additional record
whose owner name does not decode. `parseDNSPacket` parses all sections before `Resolve`
looks at the answers, so `Resolve` panics with "Invalid name" after its one query and
returns no address; the outcome depends on the additional record. -/
theorem Resolve_answer_counterexample :
    parseRecords 3 1 ⟨answerBadAdditionalResponse, 19⟩ [] =
      some (.ok ([{ Name := [97], Typ := A, Class := 1, TTL := 60,
                    data := [93, 184, 216, 34] }],
                 ⟨answerBadAdditionalResponse, 35⟩)) ∧
    decodeDNSName 3 ⟨answerBadAdditionalResponse, 35⟩ =
      some (.error "Invalid name", ⟨answerBadAdditionalResponse, 16383⟩) ∧
    parseDNSPacket 3 (NewReader answerBadAdditionalResponse) = some (.error "Invalid name") ∧
    Resolve (fun _ _ _ => .ok answerBadAdditionalResponse) 3 5 (ascii "a") A =
      (some (.error "Invalid name"), [⟨ascii "a", ascii "192.33.4.12:53", A⟩]) :=
  ⟨rfl, rfl, rfl, rfl⟩

/-! ## C18 -/

/-- C18, as amended: when `parseDNSPacket` parses the response of the current nameserver
as a whole, all four sections, into a packet, and the packet has no `A`-type answer and
has an `A`-type additional record of non-empty payload, the loop of `Resolve` takes the
first such additional record, makes the dotted-decimal string of its payload the current
nameserver and goes round again: its next query is for the same domain and record type,
to that address on port 53. -/
theorem Resolve_glue (SendQuery : Transport) (dfuel fuel : Nat) (domain : List Nat)
    (recordType : Nat) (nameserver resp : List Nat) (pkt : DNSPacket) (r : Reader)
    (pre post : List DNSRecord) (a : DNSRecord)
    (hresp : SendQuery domain (nameserver ++ ascii ":53") recordType = .ok resp)
    (hparse : parseDNSPacket dfuel (NewReader resp) = some (.ok (pkt, r)))
    (hnoans : ∀ x ∈ pkt.Answers, x.Typ ≠ A)
    (hadd : pkt.Additionals = pre ++ a :: post)
    (hpre : ∀ x ∈ pre, x.Typ = A → x.data = []) (ha : a.Typ = A) (hdata : a.data ≠ []) :
    ResolveLoop SendQuery dfuel (fuel + 2) domain recordType nameserver =
      ((ResolveLoop SendQuery dfuel (fuel + 1) domain recordType (dataIPtoString a.data)).1,
       ⟨domain, nameserver ++ ascii ":53", recordType⟩ ::
         (ResolveLoop SendQuery dfuel (fuel + 1) domain recordType
           (dataIPtoString a.data)).2) ∧
    ∃ rest, (ResolveLoop SendQuery dfuel (fuel + 2) domain recordType nameserver).2 =
      ⟨domain, nameserver ++ ascii ":53", recordType⟩ ::
      ⟨domain, dataIPtoString a.data ++ ascii ":53", recordType⟩ :: rest := by
  have hne : dataIPtoString a.data ≠ [] := dataIPtoString_ne_nil _ hdata
  have main : ResolveLoop SendQuery dfuel (fuel + 2) domain recordType nameserver =
      ((ResolveLoop SendQuery dfuel (fuel + 1) domain recordType (dataIPtoString a.data)).1,
       ⟨domain, nameserver ++ ascii ":53", recordType⟩ ::
         (ResolveLoop SendQuery dfuel (fuel + 1) domain recordType
           (dataIPtoString a.data)).2) := by
    rw [ResolveLoop]
    dsimp only
    rw [hresp]
    dsimp only
    rw [hparse]
    dsimp only
    rw [answersLoop_none _ hnoans]
    dsimp only
    rw [hadd, additionalsLoop_first pre post a [] hpre ha hdata, if_pos hne]
  refine ⟨main, ?_⟩
  obtain ⟨rest, hrest⟩ := ResolveLoop_first_query SendQuery dfuel fuel domain recordType
    (dataIPtoString a.data)
  exact ⟨rest, by rw [main, hrest]⟩

theorem Resolve_glue_witness :
    parseDNSPacket 3 (NewReader glueResponse) = some (.ok (gluePacket, ⟨glueResponse, 30⟩)) ∧
    ResolveLoop glueTransport 3 2 (ascii "a") A (ascii "192.33.4.12") =
      ((ResolveLoop glueTransport 3 1 (ascii "a") A (dataIPtoString [10, 0, 0, 1])).1,
       ⟨ascii "a", ascii "192.33.4.12" ++ ascii ":53", A⟩ ::
         (ResolveLoop glueTransport 3 1 (ascii "a") A (dataIPtoString [10, 0, 0, 1])).2) ∧
    ResolveLoop glueTransport 3 2 (ascii "a") A (ascii "192.33.4.12") =
      (some (.ok (ascii "93.184.216.34")),
       [⟨ascii "a", ascii "192.33.4.12:53", A⟩, ⟨ascii "a", ascii "10.0.0.1:53", A⟩]) :=
  ⟨rfl,
    (Resolve_glue glueTransport 3 0 (ascii "a") A (ascii "192.33.4.12") glueResponse
      gluePacket ⟨glueResponse, 30⟩ [] []
      { Name := [110, 115], Typ := 1, Class := 1, TTL := 60, data := [10, 0, 0, 1] }
      rfl rfl (fun x hx => absurd hx (List.not_mem_nil x)) rfl
      (fun x hx => absurd hx (List.not_mem_nil x)) rfl (by decide)).1,
    rfl⟩

set_option maxRecDepth 1000000 in
/-- C18 as stated fails: `glueBadAdditionalResponse`, 1024 bytes, has no answer, a first
additional record `ns A 10.0.0.1` and a second additional record whose owner name does not
decode. `parseDNSPacket` parses all sections before `Resolve` looks at the additional
records, so `Resolve` panics with "Invalid name" after its one query to the root server:
no query goes to `10.0.0.1:53`. -/
theorem Resolve_glue_counterexample :
    parseRecords 3 1 ⟨glueBadAdditionalResponse, 12⟩ [] =
      some (.ok ([{ Name := [110, 115], Typ := A, Class := 1, TTL := 60,
                    data := [10, 0, 0, 1] }],
                 ⟨glueBadAdditionalResponse, 30⟩)) ∧
    decodeDNSName 3 ⟨glueBadAdditionalResponse, 30⟩ =
      some (.error "Invalid name", ⟨glueBadAdditionalResponse, 16383⟩) ∧
    parseDNSPacket 3 (NewReader glueBadAdditionalResponse) = some (.error "Invalid name") ∧
    Resolve glueBadTransport 3 5 (ascii "a") A =
      (some (.error "Invalid name"), [⟨ascii "a", ascii "192.33.4.12:53", A⟩]) :=
  ⟨rfl, rfl, rfl, rfl⟩

/-! ## C20 -/

theorem Read_i_bounds (r : Reader) (n : Nat) :
    r.i ≤ (r.Read n).2.i ∧ (r.Read n).2.i ≤ max r.i r.s.length := by
  unfold Reader.Read
  split
  · simp
  · simp only
    omega

/-- A pass whose length byte is not a pointer either returns, having read at most one
byte, or reads a label and moves the cursor forward, not beyond the end. -/
theorem body_no_pointer (st : DecodeState) (hri : st.readerIndex = 0)
    (hnp : ¬ st.name.ReadByte.1 &&& 0b11000000 = 0b11000000) :
    (∃ res r, decodeDNSNameBody st = .ret res r ∧ st.name.i ≤ r.i ∧
      r.i - st.name.i ≤ st.name.s.length - st.name.i) ∨
    (∃ st2, decodeDNSNameBody st = .again st2 ∧ st2.readerIndex = 0 ∧
      st2.name.s = st.name.s ∧ st.name.i < st2.name.i ∧ st2.name.i ≤ st.name.s.length) := by
  rw [body_eq]
  by_cases hc : st.name.i ≥ st.name.s.length
  · left
    refine ⟨.error "Invalid name", st.name, ?_, Nat.le_refl _, by omega⟩
    simp [Reader.ReadByte, hc]
  · have hrb : st.name.ReadByte = (st.name.s.getD st.name.i 0, false,
        ⟨st.name.s, st.name.i + 1⟩) := by
      unfold Reader.ReadByte; rw [if_neg hc]
    by_cases h0 : st.name.ReadByte.1 = 0
    · left
      refine ⟨.ok (Join st.labels), ⟨st.name.s, st.name.i + 1⟩, ?_, by simp, by simp; omega⟩
      rw [if_neg (by rw [hrb]; simp), if_pos h0, if_neg (by simp [hri]), hrb]
    · right
      refine ⟨_, by rw [if_neg (by rw [hrb]; simp), if_neg h0], ?_, ?_, ?_, ?_⟩
      · simp only [if_neg hnp, hri]
      · simp only [Read_s, labelStart_s]
      · have hb := Read_i_bounds (labelStart st).2 (labelStart st).1
        have hls : (labelStart st).2 = ⟨st.name.s, st.name.i + 1⟩ := by
          unfold labelStart; rw [if_neg hnp, hrb]
        simp only
        rw [hls] at hb ⊢
        simp only at hb
        omega
      · have hb := Read_i_bounds (labelStart st).2 (labelStart st).1
        have hls : (labelStart st).2 = ⟨st.name.s, st.name.i + 1⟩ := by
          unfold labelStart; rw [if_neg hnp, hrb]
        simp only
        rw [hls] at hb ⊢
        simp only at hb
        omega

/-- A run in which no length byte is a pointer returns within one pass per remaining byte
and one more, with the cursor moved forward by at most the remaining bytes. -/
theorem loop_no_pointer (k : Nat) (st : DecodeState) (hri : st.readerIndex = 0)
    (hk : st.name.s.length - st.name.i ≤ k)
    (hnp : ∀ n st2, decodeStateAfter n st = some st2 →
      ¬ st2.name.ReadByte.1 &&& 0b11000000 = 0b11000000) :
    ∃ fuel res r, fuel ≤ k + 1 ∧ decodeDNSNameLoop fuel st = some (res, r) ∧
      st.name.i ≤ r.i ∧ r.i - st.name.i ≤ st.name.s.length - st.name.i := by
  induction k generalizing st with
  | zero =>
    rcases body_no_pointer st hri (hnp 0 st rfl) with ⟨res, r, hb, h1, h2⟩ | ⟨st2, hb, -, -, h3, h4⟩
    · exact ⟨1, res, r, by omega, loop_succ_ret 0 hb, h1, h2⟩
    · omega
  | succ k ih =>
    rcases body_no_pointer st hri (hnp 0 st rfl) with ⟨res, r, hb, h1, h2⟩ | ⟨st2, hb, h1, h2, h3, h4⟩
    · exact ⟨1, res, r, by omega, loop_succ_ret 0 hb, h1, h2⟩
    · have hnp2 : ∀ n st3, decodeStateAfter n st2 = some st3 →
          ¬ st3.name.ReadByte.1 &&& 0b11000000 = 0b11000000 := by
        intro n st3 h
        apply hnp (n + 1) st3
        rw [decodeStateAfter, hb]
        exact h
      obtain ⟨fuel, res, r, hf, hl, h5, h6⟩ := ih st2 h1 (by rw [h2]; omega) hnp2
      refine ⟨fuel + 1, res, r, by omega, ?_, by omega, ?_⟩
      · rw [loop_succ_again fuel hb, hl]
      · rw [h2] at h6; omega

theorem pointerCycle_pass (ri : Nat) (acc : List (List Nat)) :
    decodeDNSNameBody ⟨⟨pointerCycle, 2⟩, ri, acc⟩ =
      .again ⟨⟨pointerCycle, 2⟩, if ri = 0 then 4 else ri, acc ++ [[97]]⟩ :=
  @body_pointer pointerCycle 2 0 [97] [] [192, 0] ri acc (by decide) rfl rfl

theorem pointerCycle_pass_saved (acc : List (List Nat)) :
    decodeDNSNameBody ⟨⟨pointerCycle, 2⟩, 4, acc⟩ =
      .again ⟨⟨pointerCycle, 2⟩, 4, acc ++ [[97]]⟩ :=
  pointerCycle_pass 4 acc

theorem pointerCycle_loop (fuel : Nat) (acc : List (List Nat)) :
    decodeDNSNameLoop fuel ⟨⟨pointerCycle, 2⟩, 4, acc⟩ = none := by
  induction fuel generalizing acc with
  | zero => rfl
  | succ n ih => rw [loop_succ_again n (pointerCycle_pass_saved acc)]; exact ih _

theorem pointerCycle_state (n : Nat) (acc : List (List Nat)) :
    decodeStateAfter n ⟨⟨pointerCycle, 2⟩, 4, acc⟩ =
      some ⟨⟨pointerCycle, 2⟩, 4, acc ++ List.replicate n [97]⟩ := by
  induction n generalizing acc with
  | zero => simp [decodeStateAfter]
  | succ n ih =>
    rw [decodeStateAfter, pointerCycle_pass_saved acc]
    simp only
    rw [ih]
    simp [List.replicate_succ]

/-- C20: `decodeDNSName` does not return on every input: on `[1, 'a', 0xC0, 0x00]` read
from offset 0 it never returns, whatever the number of passes; from the second pass on every
pass starts at the pointer at offset 2, so it reads no terminator and does not reach the
end of the message, and appends one more label `a`. On every input on which no byte read
as a length has its top two bits set it returns, within one pass per remaining byte and one
more, having moved the cursor forward by at most the remaining bytes. -/
theorem decodeDNSName_termination :
    (∀ fuel, decodeDNSName fuel ⟨pointerCycle, 0⟩ = none) ∧
    (∀ n, decodeStateAfter (n + 2) ⟨⟨pointerCycle, 0⟩, 0, []⟩ =
      some ⟨⟨pointerCycle, 2⟩, 4, List.replicate (n + 2) [97]⟩) ∧
    (∀ (buf : List Nat) (start : Nat),
      (∀ n st, decodeStateAfter n ⟨⟨buf, start⟩, 0, []⟩ = some st →
        ¬ st.name.ReadByte.1 &&& 0b11000000 = 0b11000000) →
      ∃ fuel res r, fuel ≤ buf.length - start + 1 ∧
        decodeDNSName fuel ⟨buf, start⟩ = some (res, r) ∧
        start ≤ r.i ∧ r.i - start ≤ buf.length - start) := by
  have p1 : decodeDNSNameBody ⟨⟨pointerCycle, 0⟩, 0, []⟩ =
      .again ⟨⟨pointerCycle, 2⟩, 0, [[97]]⟩ := rfl
  have p2 : decodeDNSNameBody ⟨⟨pointerCycle, 2⟩, 0, [[97]]⟩ =
      .again ⟨⟨pointerCycle, 2⟩, 4, [[97], [97]]⟩ := pointerCycle_pass 0 [[97]]
  refine ⟨?_, ?_, ?_⟩
  · intro fuel
    unfold decodeDNSName
    rcases fuel with _ | _ | n
    · rfl
    · rw [loop_succ_again 0 p1]; rfl
    · rw [loop_succ_again (n + 1) p1, loop_succ_again n p2]
      exact pointerCycle_loop n _
  · intro n
    rw [decodeStateAfter, p1]
    simp only
    rw [decodeStateAfter, p2]
    simp only
    rw [pointerCycle_state]
    simp [List.replicate_succ]
  · intro buf start hnp
    exact loop_no_pointer (buf.length - start) ⟨⟨buf, start⟩, 0, []⟩ rfl (Nat.le_refl _) hnp

theorem decodeDNSName_termination_witness :
    (∀ n st, decodeStateAfter n ⟨⟨[1, 97, 0, 5], 0⟩, 0, []⟩ = some st →
      ¬ st.name.ReadByte.1 &&& 0b11000000 = 0b11000000) ∧
    decodeDNSName 2 ⟨[1, 97, 0, 5], 0⟩ = some (.ok [97], ⟨[1, 97, 0, 5], 3⟩) ∧
    ∃ fuel res r, fuel ≤ [1, 97, 0, 5].length - 0 + 1 ∧
      decodeDNSName fuel ⟨[1, 97, 0, 5], 0⟩ = some (res, r) ∧
      0 ≤ r.i ∧ r.i - 0 ≤ [1, 97, 0, 5].length - 0 :=
  have hnp : ∀ n st, decodeStateAfter n ⟨⟨[1, 97, 0, 5], 0⟩, 0, []⟩ = some st →
      ¬ st.name.ReadByte.1 &&& 0b11000000 = 0b11000000 := by
    intro n st h
    rcases n with _ | _ | n
    · cases h; decide
    · cases h; decide
    · cases h
  ⟨hnp, rfl, decodeDNSName_termination.2.2 [1, 97, 0, 5] 0 hnp⟩

end DNSWeekend
